import Mathlib

set_option autoImplicit false

/-!
# Verification of the Clash-Aggregator node pipeline

A shallow embedding of `aggregator.py`: the node deduplicator
(`deduplicate_nodes`), the geo resolver (`GeoDetector.get_location`,
`GeoDetector._is_ip`), the classifier/namer loop of `main`, and the
share-link parser described by the specification.  Python dicts are
modelled as association lists from string keys to string values;
external effects (DNS resolution, geo-database queries) are modelled
as oracle functions passed in explicitly.
-/

namespace ClashAggregator

/-- A YAML proxy entry (a Python dict) modelled as an association list of
string-valued fields.  `dget` mirrors `dict.get(k, '')`. -/
abbrev Dict := List (String × String)

/-- `node.get(k, '')` — lookup with empty-string default. -/
def dget (d : Dict) (k : String) : String := (d.lookup k).getD ""

/-- An element of the fetched node list: either a dict or some non-dict
YAML value (whose content is irrelevant to the pipeline). -/
inductive Entry where
  | dict (d : Dict)
  | nondict
deriving DecidableEq

/-- The dedup key of `deduplicate_nodes`:
`f"{server}:{port}:{node_type}"` with the `.get(_, '')` defaults. -/
def nodeKey (d : Dict) : String :=
  dget d "server" ++ ":" ++ dget d "port" ++ ":" ++ dget d "type"

/-- The `(endpoint, port, protocol)` triple the specification calls the
Identity Key. -/
def tripleOf (d : Dict) : String × String × String :=
  (dget d "server", dget d "port", dget d "type")

/-- The loop of `deduplicate_nodes`: `seen` is the set of keys met so far
(a Python `set`, modelled as a list). -/
def dedupAux : List Entry → List String → List Dict
  | [], _ => []
  | .nondict :: rest, seen => dedupAux rest seen
  | .dict d :: rest, seen =>
      if nodeKey d ∈ seen then dedupAux rest seen
      else d :: dedupAux rest (nodeKey d :: seen)

/-- `deduplicate_nodes(nodes)` from `aggregator.py`. -/
def deduplicate_nodes (nodes : List Entry) : List Dict :=
  dedupAux nodes []

/-- The dict-valued entries of the input, in order (non-dicts dropped). -/
def dictEntries : List Entry → List Dict
  | [] => []
  | .dict d :: rest => d :: dictEntries rest
  | .nondict :: rest => dictEntries rest

/-- Specification-side dedup: pair every dict with the list of dicts that
precede it, and keep it iff its key under `f` does not occur among them. -/
def specDedupBy {β : Type} [DecidableEq β] (f : Dict → β) (nodes : List Entry) :
    List Dict :=
  let ds := dictEntries nodes
  (ds.inits.zip ds).filterMap fun q =>
    if f q.2 ∈ q.1.map f then none else some q.2

/-- The claim's reading of the contract: first occurrence per
`(endpoint, port, protocol)` triple. -/
def specTripleDedup (nodes : List Entry) : List Dict :=
  specDedupBy tripleOf nodes

/-- The code's actual behaviour restated positionally: first occurrence per
joined `server:port:type` string. -/
def specJoinedDedup (nodes : List Entry) : List Dict :=
  specDedupBy nodeKey nodes

/-- The dict-only loop; `dedupAux` factors through it. -/
def dedupAuxD (f : Dict → String) : List Dict → List String → List Dict
  | [], _ => []
  | d :: rest, seen =>
      if f d ∈ seen then dedupAuxD f rest seen
      else d :: dedupAuxD f rest (f d :: seen)

/-- First record of the C1 counterexample. -/
def cexDictA : Dict := [("server", "a"), ("port", "1:2"), ("type", "ss")]

/-- Second record of the C1 counterexample: a different identity triple with
the same joined `server:port:type` key. -/
def cexDictB : Dict := [("server", "a:1"), ("port", "2"), ("type", "ss")]

/-- The C1 counterexample input. -/
def cexInput : List Entry := [.dict cexDictA, .dict cexDictB]

/-! ## GeoDetector: `_is_ip`, the cache and `get_location` -/
/-- Value of a hexadecimal digit character, if any. -/

def hexVal (c : Char) : Option Nat :=
  if '0' ≤ c ∧ c ≤ '9' then some (c.toNat - '0'.toNat)
  else if 'a' ≤ c ∧ c ≤ 'f' then some (c.toNat - 'a'.toNat + 10)
  else if 'A' ≤ c ∧ c ≤ 'F' then some (c.toNat - 'A'.toNat + 10)
  else none

/-- Accumulate digit characters in the given base; any non-digit (or digit
out of range for the base) makes the whole numeral invalid, as in
`inet_aton`, which requires the numeral to fill its dotted part. -/
def digitsVal (base : Nat) : List Char → Nat → Option Nat
  | [], acc => some acc
  | c :: rest, acc =>
      match hexVal c with
      | some v => if v < base then digitsVal base rest (acc * base + v) else none
      | none => none

/-- One dotted part of an IPv4 literal, parsed as C `strtoul` with base 0
(`0x`/`0X` prefix → hex, leading `0` → octal, otherwise decimal), as
`socket.inet_aton` does. -/
def parseIpPart : List Char → Option Nat
  | [] => none
  | [c] => if c = '0' then some 0 else digitsVal 10 [c] 0
  | c :: c2 :: rest2 =>
      if c = '0' then
        if c2 = 'x' ∨ c2 = 'X' then
          if rest2 = [] then none else digitsVal 16 rest2 0
        else digitsVal 8 (c2 :: rest2) 0
      else digitsVal 10 (c :: c2 :: rest2) 0

/-- Split on `'.'` (keeping empty parts, so a trailing dot fails later). -/
def splitDots : List Char → List (List Char)
  | [] => [[]]
  | c :: rest =>
      if c = '.' then [] :: splitDots rest
      else
        match splitDots rest with
        | [] => [[c]]
        | p :: ps => (c :: p) :: ps

/-- Parse every dotted part or fail. -/
def parseParts : List (List Char) → Option (List Nat)
  | [] => some []
  | p :: ps =>
      match parseIpPart p, parseParts ps with
      | some v, some vs => some (v :: vs)
      | _, _ => none

/-- `socket.inet_aton` acceptance: 1–4 numeric parts with the classical
range constraints. -/
def inetAtonOk (l : List Char) : Bool :=
  match parseParts (splitDots l) with
  | none => false
  | some [a] => decide (a < 2 ^ 32)
  | some [a, b] => decide (a < 256) && decide (b < 2 ^ 24)
  | some [a, b, c] => decide (a < 256) && decide (b < 256) && decide (c < 2 ^ 16)
  | some [a, b, c, d] =>
      decide (a < 256) && decide (b < 256) && decide (c < 256) && decide (d < 256)
  | some _ => false

/-- `GeoDetector._is_ip(string)`: true iff `socket.inet_aton` accepts. -/
def is_ip (s : String) : Bool := inetAtonOk s.data

/-- The mutable state of a `GeoDetector`: the cache dict and the three
statistics counters. -/
structure GeoState where
  cache : List (String × String)
  queries : Nat
  cache_hits : Nat
  sg_found : Nat
deriving DecidableEq

/-- Python dict assignment `cache[k] = v`: overwrite in place, or append a
new key at the end. -/
def cacheSet (cache : List (String × String)) (k v : String) :
    List (String × String) :=
  if (cache.lookup k).isSome then
    cache.map fun p => if p.1 = k then (k, v) else p
  else cache ++ [(k, v)]

/-- The address used for the geo query: the server itself when `_is_ip`
accepts it, otherwise the DNS oracle's answer (`socket.gethostbyname`,
`none` = resolution raised). -/
def resolveIp (dns : String → Option String) (server : String) : Option String :=
  if is_ip server then some server else dns server

/-- What one invocation of `get_location` returned and did: its value, the
detector state after the call, and how many DNS resolutions / geo-database
queries it performed. -/
structure GeoOutcome where
  value : String
  state : GeoState
  dnsCalls : Nat
  geoCalls : Nat
deriving DecidableEq

/-- Python's `iso_code or 'UN'`: `'UN'` when the field is `None` or the
empty string. -/
def geoCode (iso : Option String) : String :=
  match iso with
  | none => "UN"
  | some s => if s = "" then "UN" else s

/-- `GeoDetector.get_location(server)`.  `dns` models
`socket.gethostbyname` (`none` = exception). `geo` models
`self.reader.city(ip).country.iso_code`: outer `none` = the query raised
(`AddressNotFoundError` or any other error), inner option = the
`iso_code` field, which Python's `or 'UN'` replaces by `'UN'` when it is
`None` or empty. -/
def get_location (dns : String → Option String)
    (geo : String → Option (Option String)) (st : GeoState) (server : String) :
    GeoOutcome :=
  match st.cache.lookup server with
  | some v =>
      ⟨v, { st with
        queries := st.queries + 1
        cache_hits := st.cache_hits + 1 }, 0, 0⟩
  | none =>
      let dnsCalls := if is_ip server then 0 else 1
      match resolveIp dns server with
      | none =>
          ⟨"UN", { st with
            queries := st.queries + 1
            cache := cacheSet st.cache server "UN" }, dnsCalls, 0⟩
      | some ip =>
          match geo ip with
          | none =>
              ⟨"UN", { st with
                queries := st.queries + 1
                cache := cacheSet st.cache server "UN" }, dnsCalls, 1⟩
          | some iso =>
              let code := geoCode iso
              ⟨code, { st with
                queries := st.queries + 1
                cache := cacheSet st.cache server code
                sg_found := if code = "SG"
                  then st.sg_found + 1 else st.sg_found }, dnsCalls, 1⟩

/-- A freshly constructed detector: empty cache, zeroed counters. -/
def emptyGeoState : GeoState := ⟨[], 0, 0, 0⟩

/-- A DNS oracle on which every resolution raises. -/
def dnsFailOracle : String → Option String := fun _ => none

/-- A DNS oracle resolving every name to a fixed address. -/
def dnsFixedOracle : String → Option String := fun _ => some "93.184.216.34"

/-- A geo oracle answering `US` for every address. -/
def geoUSOracle : String → Option (Option String) := fun _ => some (some "US")

/-- A geo oracle on which every query raises. -/
def geoFailOracle : String → Option (Option String) := fun _ => none

/-! ## Classifier & namer (the renaming section of `main`) and pipeline -/
/-- Python's `f"{idx:03d}"`: decimal, left-padded with zeros to width 3. -/

def pad3 (n : Nat) : String :=
  if n < 10 then "00" ++ toString n
  else if n < 100 then "0" ++ toString n
  else toString n

/-- The fixed flag table of `get_flag_emoji`. -/
def flagsTable : List (String × String) :=
  [("SG", "🇸🇬"), ("US", "🇺🇸"), ("JP", "🇯🇵"), ("KR", "🇰🇷"), ("HK", "🇭🇰"),
   ("TW", "🇹🇼"), ("CN", "🇨🇳"), ("GB", "🇬🇧"), ("DE", "🇩🇪"), ("FR", "🇫🇷"),
   ("NL", "🇳🇱"), ("CA", "🇨🇦"), ("AU", "🇦🇺"), ("IN", "🇮🇳"), ("TH", "🇹🇭"),
   ("MY", "🇲🇾"), ("ID", "🇮🇩"), ("PH", "🇵🇭"), ("VN", "🇻🇳"), ("TR", "🇹🇷"),
   ("AE", "🇦🇪"), ("RU", "🇷🇺"), ("BR", "🇧🇷"), ("AR", "🇦🇷"), ("MX", "🇲🇽"),
   ("IT", "🇮🇹"), ("ES", "🇪🇸"), ("SE", "🇸🇪"), ("NO", "🇳🇴"), ("FI", "🇫🇮"),
   ("DK", "🇩🇰"), ("PL", "🇵🇱"), ("UA", "🇺🇦"), ("RO", "🇷🇴"), ("CZ", "🇨🇿"),
   ("AT", "🇦🇹"), ("CH", "🇨🇭"), ("BE", "🇧🇪"), ("IE", "🇮🇪"), ("NZ", "🇳🇿"),
   ("ZA", "🇿🇦"), ("EG", "🇪🇬"), ("IL", "🇮🇱"), ("SA", "🇸🇦"), ("CL", "🇨🇱")]

/-- `code.upper()` (the codes are ASCII, so ASCII uppercasing suffices). -/
def strUpper (s : String) : String := String.mk (s.data.map Char.toUpper)

/-- `get_flag_emoji(code)`: table lookup on the uppercased code, generic
globe for unmapped codes. -/
def get_flag_emoji (code : String) : String :=
  (flagsTable.lookup (strUpper code)).getD "🌍"

/-- The country-bucket mapping (`country_nodes`): a Python dict from
country code to the nodes resolved to it, in insertion order. -/
abbrev Buckets := List (String × List Dict)

/-- One bucket's renaming loop: `for idx, node in enumerate(nodes, 1)`
with `node['name'] = f"{flag} {code}-{idx:03d}"`; returns the renamed
nodes and the assigned names. -/
def renameLoop (flag code : String) : List Dict → Nat → List Dict × List String
  | [], _ => ([], [])
  | d :: rest, idx =>
      let name := flag ++ " " ++ code ++ "-" ++ pad3 idx
      let out := renameLoop flag code rest (idx + 1)
      (cacheSet d "name" name :: out.1, name :: out.2)

/-- The `for country_code in sorted(country_nodes.keys())` loop. -/
def processCodes (rest : Buckets) : List String → List Dict × List String
  | [] => ([], [])
  | code :: more =>
      let nodes := (rest.lookup code).getD []
      let out := renameLoop (get_flag_emoji code) code nodes 1
      let out2 := processCodes rest more
      (out.1 ++ out2.1, out.2 ++ out2.2)

/-- The classifier/namer section of `main` (lines 371–398): process the
Singapore bucket first if non-empty, delete it, then the remaining buckets
in `sorted(...)` order; returns
`(renamed_nodes, sg_node_names, all_node_names)`. -/
def classify (buckets : Buckets) : List Dict × List String × List String :=
  let sg_nodes := ((buckets.lookup "SG").getD [])
  if sg_nodes.isEmpty then
    let codes := List.insertionSort (fun a b : String => a ≤ b)
      (buckets.map Prod.fst)
    let out := processCodes buckets codes
    (out.1, [], out.2)
  else
    let sgOut := renameLoop "🇸🇬" "SG" sg_nodes 1
    let rest := buckets.filter fun p => p.1 ≠ "SG"
    let codes := List.insertionSort (fun a b : String => a ≤ b)
      (rest.map Prod.fst)
    let out := processCodes rest codes
    (sgOut.1 ++ out.1, sgOut.2, sgOut.2 ++ out.2)

/-- `country_nodes[country].append(node)` on an insertion-ordered dict. -/
def bucketAdd (b : Buckets) (k : String) (d : Dict) : Buckets :=
  if (b.lookup k).isSome then
    b.map fun p => if p.1 = k then (p.1, p.2 ++ [d]) else p
  else b ++ [(k, [d])]

/-- The geo loop of `main` (lines 329–347): skip records with an empty
`server`, resolve the rest, and bucket them by the returned code. -/
def buildBuckets (dns : String → Option String)
    (geo : String → Option (Option String)) :
    GeoState → List Dict → Buckets → GeoState × Buckets
  | st, [], b => (st, b)
  | st, d :: rest, b =>
      if dget d "server" = "" then buildBuckets dns geo st rest b
      else
        let out := get_location dns geo st (dget d "server")
        buildBuckets dns geo out.state rest (bucketAdd b out.value d)

/-- The decision skeleton of `main`: stop with no output when the fetch
yields nothing or when no named nodes remain; otherwise the output
artifact holds the classifier's result. -/
def runPipeline (dns : String → Option String)
    (geo : String → Option (Option String)) (st : GeoState)
    (fetched : List Entry) : Option (List Dict × List String × List String) :=
  if fetched.isEmpty then none
  else
    let uniq := deduplicate_nodes fetched
    let buckets := (buildBuckets dns geo st uniq []).2
    let res := classify buckets
    if res.2.2.isEmpty then none else some res

/-- The worked example of the C4 claim: buckets `{SG: [n1, n2], US: [n3]}`. -/
def exampleBuckets : Buckets :=
  [("SG", [[("server", "s1")], [("server", "s2")]]),
   ("US", [[("server", "s3")]])]

/-- Specification-side naming (§4.5 of the spec): the priority bucket's
names first, then for a given code sequence each remaining bucket's names,
the 3-digit index starting at 1 and resetting per bucket. -/
def specClassifyNames (buckets : Buckets) (codes : List String) : List String :=
  ((List.range ((buckets.lookup "SG").getD []).length).map
    fun i => "🇸🇬 SG-" ++ pad3 (i + 1)) ++
  codes.flatMap fun code =>
    (List.range
      (((buckets.filter fun p => p.1 ≠ "SG").lookup code).getD []).length).map
      fun i => get_flag_emoji code ++ " " ++ code ++ "-" ++ pad3 (i + 1)

/-! ## URI node parser (spec-modelled: the parsing script is not in the
repository snapshot; everything below follows §4.1 of the specification) -/
/-- Split at the first occurrence of `sep`; `none` when absent. -/

def splitFirst (sep : Char) : List Char → Option (List Char × List Char)
  | [] => none
  | c :: rest =>
      if c = sep then some ([], rest)
      else (splitFirst sep rest).map fun p => (c :: p.1, p.2)

/-- Split at the last occurrence of `sep`; `none` when absent. -/
def splitLast (sep : Char) (l : List Char) : Option (List Char × List Char) :=
  match splitFirst sep l.reverse with
  | none => none
  | some p => some (p.2.reverse, p.1.reverse)

/-- Longest prefix whose characters fail `p`, and the remainder. -/
def spanNot (p : Char → Bool) : List Char → List Char × List Char
  | [] => ([], [])
  | c :: rest =>
      if p c then ([], c :: rest)
      else
        let q := spanNot p rest
        (c :: q.1, q.2)

/-- Strip a literal prefix, returning the remainder on success. -/
def stripPre : List Char → List Char → Option (List Char)
  | [], l => some l
  | p :: ps, l =>
      match l with
      | [] => none
      | c :: cs => if c = p then stripPre ps cs else none

/-- The standard base64 alphabet. -/
def b64chars : List Char :=
  "ABCDEFGHIJKLMNOPQRSTUVWXYZabcdefghijklmnopqrstuvwxyz0123456789+/".data

/-- The character for a sextet. -/
def b64c (n : Nat) : Nat → List Char → Char
  | _, [] => 'A'
  | 0, c :: _ => c
  | k + 1, _ :: rest => b64c n k rest

/-- The character encoding a sextet value. -/
def b64char (n : Nat) : Char := b64c n n b64chars

/-- The index of a character in the alphabet, if any. -/
def b64find (c : Char) : List Char → Option Nat
  | [] => none
  | x :: rest => if x = c then some 0 else (b64find c rest).map (· + 1)

/-- The sextet value of an alphabet character. -/
def b64index (c : Char) : Option Nat := b64find c b64chars

/-- Base64-encode a byte sequence (bytes as `Nat`s below 256). -/
def b64encodeNat : List Nat → List Char
  | [] => []
  | [a] => [b64char (a / 4), b64char (a % 4 * 16), '=', '=']
  | [a, b] => [b64char (a / 4), b64char (a % 4 * 16 + b / 16),
      b64char (b % 16 * 4), '=']
  | a :: b :: c :: rest =>
      b64char (a / 4) :: b64char (a % 4 * 16 + b / 16) ::
        b64char (b % 16 * 4 + c / 64) :: b64char (c % 64) ::
        b64encodeNat rest

/-- Base64-decode to a byte sequence; `none` on malformed input. -/
def b64decodeNat : List Char → Option (List Nat)
  | [] => some []
  | c1 :: c2 :: c3 :: c4 :: rest =>
      match b64index c1, b64index c2 with
      | some s0, some s1 =>
          if c3 = '=' then
            if c4 = '=' ∧ rest = [] then some [s0 * 4 + s1 / 16] else none
          else
            match b64index c3 with
            | some s2 =>
                if c4 = '=' then
                  if rest = [] then
                    some [s0 * 4 + s1 / 16, s1 % 16 * 16 + s2 / 4]
                  else none
                else
                  match b64index c4, b64decodeNat rest with
                  | some s3, some ds =>
                      some ((s0 * 4 + s1 / 16) :: (s1 % 16 * 16 + s2 / 4) ::
                        (s2 % 4 * 64 + s3) :: ds)
                  | _, _ => none
            | none => none
      | _, _ => none
  | _ => none

/-- Encode a (latin-1 representable) character sequence. -/
def b64encode (l : List Char) : List Char :=
  b64encodeNat (l.map Char.toNat)

/-- Decode to a character sequence. -/
def b64decode (l : List Char) : Option (List Char) :=
  (b64decodeNat l).map fun ds => ds.map Char.ofNat

/-- Percent-decoding of `%XX` escapes (other text passes through). -/
def percentDecode : List Char → List Char
  | [] => []
  | c :: rest =>
      if c = '%' then
        match rest with
        | [] => ['%']
        | [a] => ['%', a]
        | a :: b :: rest2 =>
            match hexVal a, hexVal b with
            | some x, some y => Char.ofNat (16 * x + y) :: percentDecode rest2
            | _, _ => '%' :: percentDecode (a :: b :: rest2)
      else c :: percentDecode rest

/-- A quoted JSON string with no escapes: the characters up to the closing
quote and the remainder after it. -/
def parseJString (l : List Char) : Option (List Char × List Char) :=
  match l with
  | [] => none
  | c :: rest => if c = '"' then splitFirst '"' rest else none

/-- A JSON value: a quoted string, or a bare literal up to the next comma
or closing brace. -/
def parseJValue (l : List Char) : Option (List Char × List Char) :=
  match l with
  | [] => none
  | c :: rest =>
      if c = '"' then splitFirst '"' rest
      else
        let q := spanNot (fun ch => ch = ',' || ch = '}') (c :: rest)
        if q.1 = [] then none else some q

/-- The members of a flat JSON object after the opening brace:
`"key":value` pairs separated by commas, terminated by the closing
brace.  `fuel` bounds the recursion. -/
def parseJPairs : Nat → List Char → Option (List (String × String))
  | 0, _ => none
  | fuel + 1, l =>
      match parseJString l with
      | none => none
      | some (key, rest) =>
          match rest with
          | [] => none
          | c :: rest2 =>
              if c = ':' then
                match parseJValue rest2 with
                | none => none
                | some (val, rest3) =>
                    match rest3 with
                    | [] => none
                    | c2 :: rest4 =>
                        if c2 = ',' then
                          (parseJPairs fuel rest4).map
                            ((String.mk key, String.mk val) :: ·)
                        else if c2 = '}' ∧ rest4 = [] then
                          some [(String.mk key, String.mk val)]
                        else none
              else none

/-- A flat JSON object of string/scalar members. -/
def parseFlatObj (l : List Char) : Option (List (String × String)) :=
  match l with
  | [] => none
  | c :: rest => if c = '{' then parseJPairs rest.length rest else none

/-- One serialized member, both sides quoted. -/
def pairChars (k v : String) : List Char :=
  '"' :: k.data ++ '"' :: ':' :: '"' :: v.data ++ ['"']

/-- The members of a serialized flat object, with the closing brace. -/
def jsonBody : List (String × String) → List Char
  | [] => ['}']
  | [(k, v)] => pairChars k v ++ ['}']
  | (k, v) :: rest => pairChars k v ++ ',' :: jsonBody rest

/-- A serialized flat JSON object with all values quoted. -/
def jsonOfObj (kvs : List (String × String)) : List Char :=
  '{' :: jsonBody kvs

/-- Modelled from the spec: the canonical Node Record produced by the URI
Node Parser (§3, §4.1), whose parsing script is not part of the repository
snapshot under verification.  The protocol-specific attribute bag is kept
as an opaque list of string pairs. -/
structure NodeRecord where
  protocol : String
  display_name : String
  endpoint : String
  port : Nat
  attrs : List (String × String)
deriving DecidableEq

/-- A port segment: non-empty decimal digits. -/
def parsePort (l : List Char) : Option Nat :=
  if l = [] then none else digitsVal 10 l 0

/-- Modelled from the spec (§4.1, Scheme C, a trust-token URI): split the
trailing fragment as display name (default `Unnamed`); split the remainder
at the first `@` into password and `server:port` (from the right on the
last colon); strip a trailing query string from the port segment; set
`skip-cert-verify` and default the SNI to the server. -/
def parseTrojan (rest : List Char) : Option NodeRecord :=
  let split := match splitFirst '#' rest with
    | none => (rest, "Unnamed".data)
    | some p => p
  match splitFirst '@' split.1 with
  | none => none
  | some (pw, serverport) =>
      match splitLast ':' serverport with
      | none => none
      | some (server, portq) =>
          let portchars := match splitFirst '?' portq with
            | none => portq
            | some p => p.1
          match parsePort portchars with
          | none => none
          | some port =>
              some ⟨"trojan", String.mk split.2, String.mk server, port,
                [("password", String.mk pw), ("sni", String.mk server),
                 ("skip-cert-verify", "true")]⟩

/-- Modelled from the spec (§4.1, Scheme B, a credential-prefixed URI):
split off the trailing fragment as the percent-decoded display name
(default `Unnamed`); split the remainder at `@`; the part before `@` is
base64-encoded `cipher:password`, the part after is `server:port` split on
the last colon.  When no `@` is present, fall back to the legacy layout:
the whole remainder base64-encoded with an embedded `@`. -/
def parseSS (rest : List Char) : Option NodeRecord :=
  let split := match splitFirst '#' rest with
    | none => (rest, "Unnamed".data)
    | some p => (p.1, percentDecode p.2)
  match splitFirst '@' split.1 with
  | some (enc, serverport) =>
      match b64decode enc with
      | none => none
      | some dec =>
          match splitFirst ':' dec with
          | none => none
          | some (cipher, password) =>
              match splitLast ':' serverport with
              | none => none
              | some (server, portchars) =>
                  match parsePort portchars with
                  | none => none
                  | some port =>
                      some ⟨"ss", String.mk split.2, String.mk server, port,
                        [("cipher", String.mk cipher),
                         ("password", String.mk password)]⟩
  | none =>
      match b64decode split.1 with
      | none => none
      | some dec =>
          match splitLast '@' dec with
          | none => none
          | some (cred, serverport) =>
              match splitFirst ':' cred with
              | none => none
              | some (cipher, password) =>
                  match splitLast ':' serverport with
                  | none => none
                  | some (server, portchars) =>
                      match parsePort portchars with
                      | none => none
                      | some port =>
                          some ⟨"ss", String.mk split.2, String.mk server,
                            port,
                            [("cipher", String.mk cipher),
                             ("password", String.mk password)]⟩

/-- Modelled from the spec (§4.1, Scheme A, an inline-JSON-over-base64
format): base64-decode the remainder, parse a flat key/value object, and
map the known keys — name, address, port (default 443), id, aid (default
0), cipher (default `auto`), TLS flag from string equality to a literal,
transport type (default `tcp`), with host/path attached when present. -/
def parseVmess (rest : List Char) : Option NodeRecord :=
  match b64decode rest with
  | none => none
  | some dec =>
      match parseFlatObj dec with
      | none => none
      | some kvs =>
          let port := match kvs.lookup "port" with
            | none => some 443
            | some pstr => parsePort pstr.data
          match port with
          | none => none
          | some portN =>
              some ⟨"vmess", (kvs.lookup "name").getD "",
                (kvs.lookup "address").getD "", portN,
                [("id", (kvs.lookup "id").getD ""),
                 ("aid", (kvs.lookup "aid").getD "0"),
                 ("cipher", (kvs.lookup "cipher").getD "auto"),
                 ("tls", if kvs.lookup "tls" = some "tls"
                    then "true" else "false"),
                 ("net", (kvs.lookup "net").getD "tcp")] ++
                (match kvs.lookup "host" with
                  | some h => [("host", h)]
                  | none => []) ++
                (match kvs.lookup "path" with
                  | some p => [("path", p)]
                  | none => [])⟩

/-- Modelled from the spec (§4.1): `parse_uri_node(line)` recognizes the
three schemes by literal prefix; any other prefix yields null. -/
def parse_uri_node (line : String) : Option NodeRecord :=
  match stripPre "vmess://".data line.data with
  | some rest => parseVmess rest
  | none =>
      match stripPre "ss://".data line.data with
      | some rest => parseSS rest
      | none =>
          match stripPre "trojan://".data line.data with
          | some rest => parseTrojan rest
          | none => none

/-- A canonically encoded trust-token (trojan) share link. -/
def encodeTrojan (pw server portStr : String) (query : Option String)
    (name : String) : String :=
  String.mk ("trojan://".data ++ pw.data ++ '@' :: server.data ++
    ':' :: portStr.data ++
    (match query with
      | none => []
      | some q => '?' :: q.data) ++ '#' :: name.data)

/-- A canonically encoded credential-prefixed (ss) share link. -/
def encodeSS (cipher password server portStr name : String) : String :=
  String.mk ("ss://".data ++
    b64encode (cipher.data ++ ':' :: password.data) ++
    '@' :: server.data ++ ':' :: portStr.data ++ '#' :: name.data)

/-- A legacy-layout credential-prefixed (ss) share link: the whole
remainder base64-encoded with an embedded `@`. -/
def encodeSSLegacy (cipher password server portStr name : String) : String :=
  String.mk ("ss://".data ++
    b64encode (cipher.data ++ ':' :: password.data ++
      '@' :: server.data ++ ':' :: portStr.data) ++ '#' :: name.data)

/-- A canonically encoded inline-JSON-over-base64 (vmess) share link. -/
def encodeVmess (name address portStr id aid cipher tls net : String) :
    String :=
  String.mk ("vmess://".data ++
    b64encode (jsonOfObj [("name", name), ("address", address),
      ("port", portStr), ("id", id), ("aid", aid), ("cipher", cipher),
      ("tls", tls), ("net", net)]))

theorem dedupAux_eq_dedupAuxD (nodes : List Entry) (seen : List String) :
    dedupAux nodes seen = dedupAuxD nodeKey (dictEntries nodes) seen := by
  induction nodes generalizing seen with
  | nil => rfl
  | cons e rest ih =>
      cases e with
      | nondict => simp [dedupAux, dictEntries, ih]
      | dict d =>
          simp only [dedupAux, dictEntries, dedupAuxD]
          by_cases h : nodeKey d ∈ seen
          · simp [h, ih]
          · simp [h, ih]

theorem dedupAuxD_eq_filterMap (f : Dict → String) (ds : List Dict)
    (seen : List String) :
    dedupAuxD f ds seen =
      (ds.inits.zip ds).filterMap fun q =>
        if f q.2 ∈ seen ∨ f q.2 ∈ q.1.map f then none else some q.2 := by
  induction ds generalizing seen with
  | nil => rfl
  | cons d rest ih =>
      have hfun : ∀ (s : List String),
          ((fun q : List Dict × Dict =>
              if f q.2 ∈ s ∨ f q.2 ∈ q.1.map f then none else some q.2) ∘
            Prod.map (fun t => d :: t) id) =
          (fun q : List Dict × Dict =>
            if f q.2 ∈ f d :: s ∨ f q.2 ∈ q.1.map f then none else some q.2) := by
        intro s
        funext q
        simp only [Function.comp_apply, Prod.map_fst, Prod.map_snd, id_eq,
          List.map_cons, List.mem_cons]
        apply if_congr _ rfl rfl
        tauto
      simp only [dedupAuxD]
      rw [List.inits_cons, List.zip_cons_cons, List.filterMap_cons,
        List.zip_map_left, List.filterMap_map, hfun seen]
      by_cases h : f d ∈ seen
      · have hd : (if f d ∈ seen ∨ f d ∈ ([] : List Dict).map f then none
            else some d) = (none : Option Dict) := by
          simp [h]
        rw [hd, if_pos h, ih seen]
        apply List.filterMap_congr
        intro q _
        apply if_congr _ rfl rfl
        have hx : f q.2 ∈ f d :: seen ↔ f q.2 ∈ seen := by
          simp only [List.mem_cons]
          constructor
          · rintro (hc | hc)
            · rw [hc]; exact h
            · exact hc
          · exact Or.inr
        rw [hx]
      · have hd : (if f d ∈ seen ∨ f d ∈ ([] : List Dict).map f then none
            else some d) = some d := by
          simp [h]
        rw [hd, if_neg h, ih (f d :: seen)]

theorem deduplicate_eq_specJoined (nodes : List Entry) :
    deduplicate_nodes nodes = specJoinedDedup nodes := by
  rw [deduplicate_nodes, dedupAux_eq_dedupAuxD, dedupAuxD_eq_filterMap,
    specJoinedDedup, specDedupBy]
  apply List.filterMap_congr
  intro q _
  simp

/-- Equal identity triples always produce equal joined keys (the converse
fails, which is what refutes the claimed iff). -/
theorem nodeKey_eq_of_triple_eq (d1 d2 : Dict) (h : tripleOf d1 = tripleOf d2) :
    nodeKey d1 = nodeKey d2 := by
  simp only [tripleOf, Prod.mk.injEq] at h
  simp [nodeKey, h.1, h.2.1, h.2.2]

theorem dedupAuxD_keys (f : Dict → String) (ds : List Dict)
    (seen : List String) :
    ((dedupAuxD f ds seen).map f).Nodup ∧
      ∀ k ∈ (dedupAuxD f ds seen).map f, k ∉ seen := by
  induction ds generalizing seen with
  | nil => exact ⟨List.nodup_nil, by intro k hk; cases hk⟩
  | cons d rest ih =>
      simp only [dedupAuxD]
      by_cases h : f d ∈ seen
      · rw [if_pos h]; exact ih seen
      · rw [if_neg h]
        obtain ⟨hnd, hout⟩ := ih (f d :: seen)
        refine ⟨?_, ?_⟩
        · rw [List.map_cons, List.nodup_cons]
          exact ⟨fun hc => (hout _ hc) (List.mem_cons_self _ _), hnd⟩
        · intro k hk
          rw [List.map_cons, List.mem_cons] at hk
          rcases hk with hk | hk
          · rw [hk]; exact h
          · exact fun hc => (hout _ hk) (List.mem_cons_of_mem _ hc)

theorem dedupAuxD_id (f : Dict → String) (ds : List Dict) (seen : List String)
    (hseen : ∀ d ∈ ds, f d ∉ seen) (hnd : (ds.map f).Nodup) :
    dedupAuxD f ds seen = ds := by
  induction ds generalizing seen with
  | nil => rfl
  | cons d rest ih =>
      rw [List.map_cons, List.nodup_cons] at hnd
      simp only [dedupAuxD]
      rw [if_neg (hseen d (List.mem_cons_self _ _))]
      congr 1
      apply ih
      · intro d' hd'
        rw [List.mem_cons]
        rintro (hc | hc)
        · exact hnd.1 (hc ▸ List.mem_map_of_mem f hd')
        · exact hseen d' (List.mem_cons_of_mem _ hd') hc
      · exact hnd.2

theorem dictEntries_map_dict (ds : List Dict) :
    dictEntries (ds.map Entry.dict) = ds := by
  induction ds with
  | nil => rfl
  | cons d rest ih => simp [dictEntries, ih]

theorem cacheSet_of_lookup_none (c : List (String × String)) (k v : String)
    (h : c.lookup k = none) : cacheSet c k v = c ++ [(k, v)] := by
  simp [cacheSet, h]

theorem lookup_cacheSet_self (c : List (String × String)) (k v : String)
    (h : c.lookup k = none) : (cacheSet c k v).lookup k = some v := by
  rw [cacheSet_of_lookup_none c k v h, List.lookup_append, h]
  simp

theorem lookup_cacheSet_mono (c : List (String × String)) (k v k' v' : String)
    (h : c.lookup k = none) (h' : c.lookup k' = some v') :
    (cacheSet c k v).lookup k' = some v' := by
  rw [cacheSet_of_lookup_none c k v h, List.lookup_append, h']
  rfl

/-- `':'` is not a digit in any base. -/
theorem hexVal_colon : hexVal ':' = none := by decide

theorem digitsVal_colon (base : Nat) (l : List Char) (acc : Nat)
    (h : ':' ∈ l) : digitsVal base l acc = none := by
  induction l generalizing acc with
  | nil => cases h
  | cons c rest ih =>
      rcases List.mem_cons.mp h with hc | hc
      · rw [← hc]
        simp [digitsVal, hexVal_colon]
      · simp only [digitsVal]
        cases hv : hexVal c with
        | none => rfl
        | some v =>
            show (if v < base then digitsVal base rest (acc * base + v)
              else none) = none
            by_cases hb : v < base
            · rw [if_pos hb]; exact ih (acc * base + v) hc
            · rw [if_neg hb]

theorem parseIpPart_colon (l : List Char) (h : ':' ∈ l) :
    parseIpPart l = none := by
  match l with
  | [] => cases h
  | [c] =>
      have hc : c = ':' := by
        rcases List.mem_cons.mp h with hc | hc
        · exact hc.symm
        · cases hc
      have hc0 : ¬c = '0' := by rw [hc]; decide
      simp only [parseIpPart]
      rw [if_neg hc0]
      exact digitsVal_colon 10 [c] 0 (by rw [hc]; exact List.mem_cons_self _ _)
  | c :: c2 :: rest2 =>
      simp only [parseIpPart]
      by_cases hc0 : c = '0'
      · rw [if_pos hc0]
        have hcc : ':' ∈ c2 :: rest2 := by
          rcases List.mem_cons.mp h with hc | hc
          · exact absurd (hc.trans hc0) (by decide)
          · exact hc
        by_cases hx : c2 = 'x' ∨ c2 = 'X'
        · rw [if_pos hx]
          have hc2 : ':' ∈ rest2 := by
            rcases List.mem_cons.mp hcc with hc | hc
            · rcases hx with hx | hx <;>
                exact absurd (hc.trans hx) (by decide)
            · exact hc
          by_cases hr : rest2 = []
          · rw [if_pos hr]
          · rw [if_neg hr]
            exact digitsVal_colon 16 rest2 0 hc2
        · rw [if_neg hx]
          exact digitsVal_colon 8 (c2 :: rest2) 0 hcc
      · rw [if_neg hc0]
        exact digitsVal_colon 10 (c :: c2 :: rest2) 0 h

theorem splitDots_colon (l : List Char) (h : ':' ∈ l) :
    ∃ p ∈ splitDots l, ':' ∈ p := by
  induction l with
  | nil => cases h
  | cons c rest ih =>
      by_cases hdot : c = '.'
      · have hc : ':' ∈ rest := by
          rcases List.mem_cons.mp h with hc | hc
          · exact absurd (hc.trans hdot) (by decide)
          · exact hc
        obtain ⟨p, hp, hpc⟩ := ih hc
        exact ⟨p, by simp [splitDots, hdot, hp], hpc⟩
      · rcases List.mem_cons.mp h with hc | hc
        · simp only [splitDots, if_neg hdot]
          cases hs : splitDots rest with
          | nil =>
              exact ⟨[c], List.mem_cons_self _ _, by
                rw [hc]; exact List.mem_cons_self _ _⟩
          | cons p ps =>
              exact ⟨c :: p, List.mem_cons_self _ _, by
                rw [hc]; exact List.mem_cons_self _ _⟩
        · obtain ⟨p, hp, hpc⟩ := ih hc
          simp only [splitDots, if_neg hdot]
          cases hs : splitDots rest with
          | nil => rw [hs] at hp; cases hp
          | cons q qs =>
              rw [hs] at hp
              rcases List.mem_cons.mp hp with hq | hq
              · exact ⟨c :: q, List.mem_cons_self _ _, by
                  rw [← hq]; exact List.mem_cons_of_mem _ hpc⟩
              · exact ⟨p, List.mem_cons_of_mem _ hq, hpc⟩

theorem parseParts_of_fail (ps : List (List Char)) (p : List Char)
    (hp : p ∈ ps) (hfail : parseIpPart p = none) : parseParts ps = none := by
  induction ps with
  | nil => cases hp
  | cons q qs ih =>
      simp only [parseParts]
      rcases List.mem_cons.mp hp with hq | hq
      · rw [← hq, hfail]
      · rw [ih hq]
        cases parseIpPart q <;> rfl

/-- Any string containing a colon is rejected by `_is_ip`. -/
theorem is_ip_colon (s : String) (h : ':' ∈ s.data) : is_ip s = false := by
  obtain ⟨p, hp, hpc⟩ := splitDots_colon s.data h
  rw [is_ip, inetAtonOk,
    parseParts_of_fail (splitDots s.data) p hp (parseIpPart_colon p hpc)]

theorem get_location_hit (dns : String → Option String)
    (geo : String → Option (Option String)) (st : GeoState) (server v : String)
    (h : st.cache.lookup server = some v) :
    get_location dns geo st server =
      ⟨v, { st with
        queries := st.queries + 1
        cache_hits := st.cache_hits + 1 }, 0, 0⟩ := by
  simp only [get_location, h]

theorem get_location_dnsFail (dns : String → Option String)
    (geo : String → Option (Option String)) (st : GeoState) (server : String)
    (h : st.cache.lookup server = none) (hr : resolveIp dns server = none) :
    get_location dns geo st server =
      ⟨"UN", { st with
        queries := st.queries + 1
        cache := cacheSet st.cache server "UN" },
        (if is_ip server then 0 else 1), 0⟩ := by
  simp only [get_location, h, hr]

theorem get_location_geoFail (dns : String → Option String)
    (geo : String → Option (Option String)) (st : GeoState) (server ip : String)
    (h : st.cache.lookup server = none) (hr : resolveIp dns server = some ip)
    (hg : geo ip = none) :
    get_location dns geo st server =
      ⟨"UN", { st with
        queries := st.queries + 1
        cache := cacheSet st.cache server "UN" },
        (if is_ip server then 0 else 1), 1⟩ := by
  simp only [get_location, h, hr, hg]

theorem get_location_geoHit (dns : String → Option String)
    (geo : String → Option (Option String)) (st : GeoState) (server ip : String)
    (iso : Option String) (h : st.cache.lookup server = none)
    (hr : resolveIp dns server = some ip) (hg : geo ip = some iso) :
    get_location dns geo st server =
      ⟨geoCode iso, { st with
        queries := st.queries + 1
        cache := cacheSet st.cache server (geoCode iso)
        sg_found := if geoCode iso = "SG"
          then st.sg_found + 1 else st.sg_found },
        (if is_ip server then 0 else 1), 1⟩ := by
  simp only [get_location, h, hr, hg]

theorem get_location_miss (dns : String → Option String)
    (geo : String → Option (Option String)) (st : GeoState) (server : String)
    (h : st.cache.lookup server = none) :
    (get_location dns geo st server).state.cache =
        cacheSet st.cache server (get_location dns geo st server).value ∧
      (get_location dns geo st server).state.cache_hits = st.cache_hits ∧
      (get_location dns geo st server).state.queries = st.queries + 1 ∧
      (get_location dns geo st server).dnsCalls =
        (if is_ip server then 0 else 1) ∧
      (get_location dns geo st server).geoCalls ≤ 1 := by
  cases hr : resolveIp dns server with
  | none =>
      rw [get_location_dnsFail dns geo st server h hr]
      exact ⟨rfl, rfl, rfl, rfl, Nat.zero_le 1⟩
  | some ip =>
      cases hg : geo ip with
      | none =>
          rw [get_location_geoFail dns geo st server ip h hr hg]
          exact ⟨rfl, rfl, rfl, rfl, Nat.le_refl 1⟩
      | some iso =>
          rw [get_location_geoHit dns geo st server ip iso h hr hg]
          exact ⟨rfl, rfl, rfl, rfl, Nat.le_refl 1⟩

theorem lookup_map_replace {β : Type} (c : List (String × β)) (k : String)
    (f : β → β) (k' : String) (hne : k' ≠ k) :
    (c.map fun p => if p.1 = k then (k, f p.2) else p).lookup k' =
      c.lookup k' := by
  induction c with
  | nil => rfl
  | cons p rest ih =>
      obtain ⟨a, b⟩ := p
      by_cases hp : a = k
      · subst hp
        simp only [List.map_cons, eq_self_iff_true, if_true, List.lookup_cons,
          beq_eq_false_iff_ne.mpr hne]
        exact ih
      · simp only [List.map_cons, if_neg hp, List.lookup_cons]
        cases hk : k' == a with
        | true => rfl
        | false => exact ih

theorem lookup_map_replace_self {β : Type} (c : List (String × β)) (k : String)
    (f : β → β) (h : (c.lookup k).isSome) :
    (c.map fun p => if p.1 = k then (k, f p.2) else p).lookup k =
      (c.lookup k).map f := by
  induction c with
  | nil => simp at h
  | cons p rest ih =>
      obtain ⟨a, b⟩ := p
      by_cases hp : a = k
      · subst hp
        simp [List.lookup_cons]
      · have hk : (k == a) = false := beq_eq_false_iff_ne.mpr (Ne.symm hp)
        simp only [List.map_cons, if_neg hp, List.lookup_cons, hk] at h ⊢
        exact ih h

theorem lookup_cacheSet (c : List (String × String)) (k v : String) :
    (cacheSet c k v).lookup k = some v := by
  by_cases h : (c.lookup k).isSome
  · rw [cacheSet, if_pos h]
    have : (fun p : String × String => if p.1 = k then (k, v) else p) =
        fun p : String × String => if p.1 = k then (k, (fun _ => v) p.2)
          else p := rfl
    rw [this, lookup_map_replace_self c k (fun _ => v) h]
    obtain ⟨w, hw⟩ := Option.isSome_iff_exists.mp h
    rw [hw]
    rfl
  · rw [Option.not_isSome_iff_eq_none] at h
    rw [cacheSet_of_lookup_none c k v h, List.lookup_append, h]
    simp

theorem lookup_cacheSet_ne (c : List (String × String)) (k v k' : String)
    (hne : k' ≠ k) : (cacheSet c k v).lookup k' = c.lookup k' := by
  by_cases h : (c.lookup k).isSome
  · rw [cacheSet, if_pos h]
    have : (fun p : String × String => if p.1 = k then (k, v) else p) =
        fun p : String × String => if p.1 = k then (k, (fun _ => v) p.2)
          else p := rfl
    rw [this, lookup_map_replace c k (fun _ => v) k' hne]
  · rw [Option.not_isSome_iff_eq_none] at h
    rw [cacheSet_of_lookup_none c k v h, List.lookup_append]
    have : List.lookup k' [(k, v)] = none := by
      simp [List.lookup_cons, beq_eq_false_iff_ne.mpr hne]
    rw [this, Option.or_none]

theorem dget_cacheSet_self (d : Dict) (k v : String) :
    dget (cacheSet d k v) k = v := by
  rw [dget, lookup_cacheSet]
  rfl

theorem renameLoop_names (flag code : String) (nodes : List Dict) (idx : Nat) :
    (renameLoop flag code nodes idx).2 =
      (List.range nodes.length).map
        fun i => flag ++ " " ++ code ++ "-" ++ pad3 (idx + i) := by
  induction nodes generalizing idx with
  | nil => rfl
  | cons d rest ih =>
      simp only [renameLoop, List.length_cons, List.range_succ_eq_map,
        List.map_cons, List.map_map, ih (idx + 1)]
      congr 1
      apply List.map_congr_left
      intro i _
      simp only [Function.comp_apply, Nat.succ_eq_add_one]
      have h2 : idx + 1 + i = idx + (i + 1) := by omega
      rw [h2]

theorem renameLoop_map_name (flag code : String) (nodes : List Dict)
    (idx : Nat) :
    (renameLoop flag code nodes idx).1.map (fun d => dget d "name") =
      (renameLoop flag code nodes idx).2 := by
  induction nodes generalizing idx with
  | nil => rfl
  | cons d rest ih =>
      simp only [renameLoop, List.map_cons, dget_cacheSet_self, ih (idx + 1)]

theorem renameLoop_mem (flag code : String) (nodes : List Dict) (idx : Nat)
    (d : Dict) (h : d ∈ (renameLoop flag code nodes idx).1) :
    ∃ n ∈ nodes, ∃ v, d = cacheSet n "name" v := by
  induction nodes generalizing idx with
  | nil => cases h
  | cons n rest ih =>
      simp only [renameLoop] at h
      rcases List.mem_cons.mp h with hd | hd
      · exact ⟨n, List.mem_cons_self _ _, _, hd⟩
      · obtain ⟨n', hn', v, hv⟩ := ih (idx + 1) hd
        exact ⟨n', List.mem_cons_of_mem _ hn', v, hv⟩

theorem processCodes_names (rest : Buckets) (codes : List String) :
    (processCodes rest codes).2 = codes.flatMap fun code =>
      (List.range ((rest.lookup code).getD []).length).map
        fun i => get_flag_emoji code ++ " " ++ code ++ "-" ++ pad3 (1 + i) := by
  induction codes with
  | nil => rfl
  | cons code more ih =>
      simp only [processCodes, List.flatMap_cons, ih,
        renameLoop_names (get_flag_emoji code) code _ 1]

theorem processCodes_map_name (rest : Buckets) (codes : List String) :
    (processCodes rest codes).1.map (fun d => dget d "name") =
      (processCodes rest codes).2 := by
  induction codes with
  | nil => rfl
  | cons code more ih =>
      simp only [processCodes, List.map_append, ih, renameLoop_map_name]

theorem lookup_mem {β : Type} (l : List (String × β)) (k : String) (v : β)
    (h : l.lookup k = some v) : (k, v) ∈ l := by
  induction l with
  | nil => cases h
  | cons p rest ih =>
      obtain ⟨a, b⟩ := p
      rw [List.lookup_cons] at h
      cases hk : k == a with
      | true =>
          rw [hk] at h
          obtain rfl := beq_iff_eq.mp hk
          cases h
          exact List.mem_cons_self _ _
      | false =>
          rw [hk] at h
          exact List.mem_cons_of_mem _ (ih h)

theorem processCodes_mem (rest : Buckets) (codes : List String) (d : Dict)
    (h : d ∈ (processCodes rest codes).1) :
    ∃ pr ∈ rest, ∃ n ∈ pr.2, ∃ v, d = cacheSet n "name" v := by
  induction codes with
  | nil => cases h
  | cons code more ih =>
      simp only [processCodes] at h
      rcases List.mem_append.mp h with hd | hd
      · obtain ⟨n, hn, v, hv⟩ :=
          renameLoop_mem (get_flag_emoji code) code _ 1 d hd
        cases hl : rest.lookup code with
        | none => rw [hl] at hn; cases hn
        | some ns =>
            rw [hl] at hn
            exact ⟨(code, ns), lookup_mem rest code ns hl, n, hn, v, hv⟩
      · exact ih hd

theorem names_flatMap_comm (rest : Buckets) (codes : List String) :
    (codes.flatMap fun code =>
      (List.range ((rest.lookup code).getD []).length).map
        fun i => get_flag_emoji code ++ " " ++ code ++ "-" ++ pad3 (1 + i)) =
    codes.flatMap fun code =>
      (List.range ((rest.lookup code).getD []).length).map
        fun i => get_flag_emoji code ++ " " ++ code ++ "-" ++ pad3 (i + 1) := by
  rw [List.flatMap, List.flatMap]
  congr 1
  apply List.map_congr_left
  intro code _
  apply List.map_congr_left
  intro i _
  rw [Nat.add_comm]

theorem classify_empty_branch (buckets : Buckets)
    (h : ((buckets.lookup "SG").getD []).isEmpty = true) :
    classify buckets =
      ((processCodes buckets (List.insertionSort (fun a b : String => a ≤ b)
        (buckets.map Prod.fst))).1, [],
       (processCodes buckets (List.insertionSort (fun a b : String => a ≤ b)
        (buckets.map Prod.fst))).2) := by
  simp only [classify, h, if_true]

theorem classify_sg_branch (buckets : Buckets)
    (h : ((buckets.lookup "SG").getD []).isEmpty = false) :
    classify buckets =
      ((renameLoop "🇸🇬" "SG" ((buckets.lookup "SG").getD []) 1).1 ++
        (processCodes (buckets.filter fun p => p.1 ≠ "SG")
          (List.insertionSort (fun a b : String => a ≤ b)
            ((buckets.filter fun p => p.1 ≠ "SG").map Prod.fst))).1,
       (renameLoop "🇸🇬" "SG" ((buckets.lookup "SG").getD []) 1).2,
       (renameLoop "🇸🇬" "SG" ((buckets.lookup "SG").getD []) 1).2 ++
        (processCodes (buckets.filter fun p => p.1 ≠ "SG")
          (List.insertionSort (fun a b : String => a ≤ b)
            ((buckets.filter fun p => p.1 ≠ "SG").map Prod.fst))).2) := by
  simp only [classify, h, if_false, Bool.false_eq_true]

theorem classify_map_name (buckets : Buckets) :
    ((classify buckets).1.map fun d => dget d "name") =
      (classify buckets).2.2 := by
  cases h : ((buckets.lookup "SG").getD []).isEmpty with
  | true =>
      rw [classify_empty_branch buckets h]
      exact processCodes_map_name _ _
  | false =>
      rw [classify_sg_branch buckets h]
      simp only [List.map_append, renameLoop_map_name, processCodes_map_name]

/-- C2 (counterexample): for the IP-literal endpoint `1.2.3.4` (never seen
before), two successive `get_location` calls perform zero DNS resolutions
in total, not exactly one: `_is_ip` accepts the literal and skips DNS. -/
theorem C2_counterexample :
    (get_location dnsFailOracle geoUSOracle emptyGeoState "1.2.3.4").dnsCalls +
      (get_location dnsFailOracle geoUSOracle
        (get_location dnsFailOracle geoUSOracle emptyGeoState "1.2.3.4").state
        "1.2.3.4").dnsCalls = 0 ∧
    (get_location dnsFailOracle geoUSOracle emptyGeoState "1.2.3.4").geoCalls +
      (get_location dnsFailOracle geoUSOracle
        (get_location dnsFailOracle geoUSOracle emptyGeoState "1.2.3.4").state
        "1.2.3.4").geoCalls = 1 := by
  constructor <;> rfl

/-- C2 (amended): `get_location` is memoizing.  For an endpoint not yet
cached, the first call performs at most one DNS resolution and at most one
geo query; the second call performs none at all, returns the value the
first call stored in the cache, and increments the cache-hit counter by
one while leaving the cache unchanged; and no cache entry is ever
evicted. -/
theorem C2_get_location_memoizes (dns : String → Option String)
    (geo : String → Option (Option String)) (st : GeoState) (server : String)
    (h : st.cache.lookup server = none) :
    (get_location dns geo st server).dnsCalls ≤ 1 ∧
    (get_location dns geo st server).geoCalls ≤ 1 ∧
    (get_location dns geo st server).state.cache.lookup server =
      some (get_location dns geo st server).value ∧
    get_location dns geo (get_location dns geo st server).state server =
      ⟨(get_location dns geo st server).value,
        { (get_location dns geo st server).state with
          queries := (get_location dns geo st server).state.queries + 1
          cache_hits := (get_location dns geo st server).state.cache_hits + 1 },
        0, 0⟩ ∧
    (∀ k v, st.cache.lookup k = some v →
      (get_location dns geo st server).state.cache.lookup k = some v) := by
  obtain ⟨hcache, hhits, hq, hdns, hgeo⟩ := get_location_miss dns geo st server h
  have hlk : (get_location dns geo st server).state.cache.lookup server =
      some (get_location dns geo st server).value := by
    rw [hcache]
    exact lookup_cacheSet_self _ _ _ h
  refine ⟨?_, hgeo, hlk, ?_, ?_⟩
  · rw [hdns]
    by_cases hip : is_ip server <;> simp [hip]
  · exact get_location_hit dns geo _ server _ hlk
  · intro k v hkv
    rw [hcache]
    exact lookup_cacheSet_mono _ _ _ _ _ h hkv

/-- C2 (witness): the amended theorem applied to a fresh detector, a DNS
oracle resolving every name, a geo oracle answering `US`, and the endpoint
`example.com`. -/
theorem C2_witness :
    emptyGeoState.cache.lookup "example.com" = none ∧
    ((get_location dnsFixedOracle geoUSOracle emptyGeoState
        "example.com").dnsCalls ≤ 1 ∧
      (get_location dnsFixedOracle geoUSOracle emptyGeoState
        "example.com").geoCalls ≤ 1 ∧
      (get_location dnsFixedOracle geoUSOracle emptyGeoState
        "example.com").state.cache.lookup "example.com" =
        some (get_location dnsFixedOracle geoUSOracle emptyGeoState
          "example.com").value ∧
      get_location dnsFixedOracle geoUSOracle
          (get_location dnsFixedOracle geoUSOracle emptyGeoState
            "example.com").state "example.com" =
        ⟨(get_location dnsFixedOracle geoUSOracle emptyGeoState
            "example.com").value,
          { (get_location dnsFixedOracle geoUSOracle emptyGeoState
              "example.com").state with
            queries := (get_location dnsFixedOracle geoUSOracle emptyGeoState
              "example.com").state.queries + 1
            cache_hits := (get_location dnsFixedOracle geoUSOracle
              emptyGeoState "example.com").state.cache_hits + 1 },
          0, 0⟩ ∧
      (∀ k v, emptyGeoState.cache.lookup k = some v →
        (get_location dnsFixedOracle geoUSOracle emptyGeoState
          "example.com").state.cache.lookup k = some v)) :=
  ⟨rfl, C2_get_location_memoizes dnsFixedOracle geoUSOracle emptyGeoState
    "example.com" rfl⟩

/-- C3 (counterexample): on an unresolvable hostname the code returns and
caches the two-letter code `"UN"`, not the string `"unknown"` the claim
names. -/
theorem C3_counterexample :
    (get_location dnsFailOracle geoUSOracle emptyGeoState
      "unresolvable.host").value = "UN" ∧
    (get_location dnsFailOracle geoUSOracle emptyGeoState
      "unresolvable.host").value ≠ "unknown" := by
  constructor
  · rfl
  · decide

/-- C3 (amended): `get_location` never raises (it is a total function of
its oracles); on every failure path — unresolvable hostname, geo query
raising, or an address whose record has no country code — it returns the
sentinel `"UN"`; and on every path the returned value is stored in the
cache keyed by the original raw endpoint string. -/
theorem C3_failure_returns_UN (dns : String → Option String)
    (geo : String → Option (Option String)) (st : GeoState) (server : String)
    (h : st.cache.lookup server = none) :
    (get_location dns geo st server).state.cache.lookup server =
      some (get_location dns geo st server).value ∧
    (resolveIp dns server = none →
      (get_location dns geo st server).value = "UN") ∧
    (∀ ip, resolveIp dns server = some ip → geo ip = none →
      (get_location dns geo st server).value = "UN") ∧
    (∀ ip, resolveIp dns server = some ip → geo ip = some none →
      (get_location dns geo st server).value = "UN") := by
  refine ⟨?_, ?_, ?_, ?_⟩
  · rw [(get_location_miss dns geo st server h).1]
    exact lookup_cacheSet_self _ _ _ h
  · intro hr
    rw [get_location_dnsFail dns geo st server h hr]
  · intro ip hr hg
    rw [get_location_geoFail dns geo st server ip h hr hg]
  · intro ip hr hg
    rw [get_location_geoHit dns geo st server ip none h hr hg]
    rfl

/-- C3 (witness): the amended theorem applied to a fresh detector, a DNS
oracle on which every resolution raises, and the hostname
`unresolvable.host`; the DNS-failure branch fires and yields `"UN"`. -/
theorem C3_witness :
    emptyGeoState.cache.lookup "unresolvable.host" = none ∧
    resolveIp dnsFailOracle "unresolvable.host" = none ∧
    (get_location dnsFailOracle geoUSOracle emptyGeoState
      "unresolvable.host").value = "UN" ∧
    (get_location dnsFailOracle geoUSOracle emptyGeoState
      "unresolvable.host").state.cache.lookup "unresolvable.host" =
      some (get_location dnsFailOracle geoUSOracle emptyGeoState
        "unresolvable.host").value :=
  ⟨rfl, rfl,
    (C3_failure_returns_UN dnsFailOracle geoUSOracle emptyGeoState
      "unresolvable.host" rfl).2.1 rfl,
    (C3_failure_returns_UN dnsFailOracle geoUSOracle emptyGeoState
      "unresolvable.host" rfl).1⟩

/-- C10: `_is_ip` rejects every string containing a colon, so an IPv6
literal is treated as a hostname; when its (IPv4-only) DNS resolution
fails, `get_location` performs one DNS call and no geo query, returns
`"UN"`, and caches `"UN"` under the raw endpoint string. -/
theorem C10_ipv6_literal_rejected (s : String) (dns : String → Option String)
    (geo : String → Option (Option String)) (st : GeoState)
    (hcolon : ':' ∈ s.data) (hc : st.cache.lookup s = none)
    (hdns : dns s = none) :
    is_ip s = false ∧
    get_location dns geo st s =
      ⟨"UN", { st with
        queries := st.queries + 1
        cache := cacheSet st.cache s "UN" }, 1, 0⟩ ∧
    (get_location dns geo st s).state.cache.lookup s = some "UN" := by
  have hip := is_ip_colon s hcolon
  have hr : resolveIp dns s = none := by
    rw [resolveIp, hip]
    simp [hdns]
  have he := get_location_dnsFail dns geo st s hc hr
  refine ⟨hip, ?_, ?_⟩
  · rw [he, hip]
    rfl
  · rw [he]
    exact lookup_cacheSet_self _ _ _ hc

/-- C10 (witness): the theorem applied to the IPv6 loopback literal `::1`
with a failing DNS oracle and a fresh detector. -/
theorem C10_witness :
    ':' ∈ "::1".data ∧
    is_ip "::1" = false ∧
    get_location dnsFailOracle geoUSOracle emptyGeoState "::1" =
      ⟨"UN", { emptyGeoState with
        queries := emptyGeoState.queries + 1
        cache := cacheSet emptyGeoState.cache "::1" "UN" }, 1, 0⟩ ∧
    (get_location dnsFailOracle geoUSOracle emptyGeoState
      "::1").state.cache.lookup "::1" = some "UN" :=
  ⟨by decide,
    (C10_ipv6_literal_rejected "::1" dnsFailOracle geoUSOracle emptyGeoState
      (by decide) rfl rfl).1,
    (C10_ipv6_literal_rejected "::1" dnsFailOracle geoUSOracle emptyGeoState
      (by decide) rfl rfl).2.1,
    (C10_ipv6_literal_rejected "::1" dnsFailOracle geoUSOracle emptyGeoState
      (by decide) rfl rfl).2.2⟩

/-- C1 (counterexample): two records whose `(endpoint, port, protocol)`
triples differ but whose joined `server:port:type` keys collide; the second
record's triple never occurred earlier, yet `deduplicate_nodes` drops it, so
records are not deduplicated by triple equality alone. -/
theorem C1_counterexample :
    tripleOf cexDictB ≠ tripleOf cexDictA ∧
      deduplicate_nodes cexInput = [cexDictA] ∧
      specTripleDedup cexInput = [cexDictA, cexDictB] := by
  refine ⟨by decide, by decide, by decide⟩

/-- C1 (amended): `deduplicate_nodes` returns exactly the dict-valued
entries whose joined key string `server:port:type` has not occurred at an
earlier position, in original input order; non-dict entries are silently
discarded.  (Equal triples imply equal joined keys, but distinct triples
can collide on the joined key, so the claimed iff with triple equality
fails.) -/
theorem C1_dedup_first_seen_by_joined_key (nodes : List Entry) :
    deduplicate_nodes nodes = specJoinedDedup nodes :=
  deduplicate_eq_specJoined nodes

/-- C8: `deduplicate_nodes` is idempotent — re-running it on its own output
(re-wrapped as dict entries) returns that output unchanged. -/
theorem C8_deduplicate_idempotent (nodes : List Entry) :
    deduplicate_nodes ((deduplicate_nodes nodes).map Entry.dict) =
      deduplicate_nodes nodes := by
  rw [deduplicate_nodes, deduplicate_nodes, dedupAux_eq_dedupAuxD,
    dedupAux_eq_dedupAuxD, dictEntries_map_dict]
  apply dedupAuxD_id
  · intro d _
    exact List.not_mem_nil _
  · exact (dedupAuxD_keys nodeKey (dictEntries nodes) []).1

/-- C4: for every country-bucket mapping (whose buckets are non-empty, as
the `defaultdict`-built mapping guarantees), the emitted name list is the
priority (SG) bucket's names first, then the remaining buckets in
ascending lexicographic order of country code; names are
`"<flag> <CODE>-<index>"` with the zero-padded 3-digit index starting at
1 and resetting per bucket; each renamed node carries exactly its
assigned name; and the example `{SG: [n1, n2], US: [n3]}` yields
`["🇸🇬 SG-001", "🇸🇬 SG-002", "🇺🇸 US-001"]`. -/
theorem C4_classifier_order_and_names (buckets : Buckets)
    (hne : ∀ p ∈ buckets, p.2 ≠ []) :
    (∃ codes : List String,
      List.Sorted (fun a b : String => a ≤ b) codes ∧
      codes.Perm ((buckets.filter fun p => p.1 ≠ "SG").map Prod.fst) ∧
      (classify buckets).2.2 = specClassifyNames buckets codes) ∧
    ((classify buckets).1.map fun d => dget d "name") =
      (classify buckets).2.2 ∧
    (classify exampleBuckets).2.2 =
      ["🇸🇬 SG-001", "🇸🇬 SG-002", "🇺🇸 US-001"] := by
  refine ⟨?_, classify_map_name buckets, by decide⟩
  cases h : ((buckets.lookup "SG").getD []).isEmpty with
  | true =>
      have hnone : buckets.lookup "SG" = none := by
        cases hl : buckets.lookup "SG" with
        | none => rfl
        | some v =>
            rw [hl] at h
            have hv : v = [] := by simpa using h
            exact absurd hv (hne ("SG", v) (lookup_mem _ _ _ hl))
      have hfilter : (buckets.filter fun p => p.1 ≠ "SG") = buckets := by
        apply List.filter_eq_self.mpr
        intro p hp
        have h2 := List.lookup_eq_none_iff.mp hnone p hp
        simp only [bne_iff_ne] at h2
        simpa using Ne.symm h2
      refine ⟨List.insertionSort (fun a b : String => a ≤ b)
        (buckets.map Prod.fst), List.sorted_insertionSort _ _, ?_, ?_⟩
      · rw [hfilter]
        exact List.perm_insertionSort _ _
      · rw [classify_empty_branch buckets h, specClassifyNames, hnone, hfilter]
        simp only [Option.getD_none, List.length_nil, List.range_zero,
          List.map_nil, List.nil_append]
        rw [processCodes_names, names_flatMap_comm]
  | false =>
      have hsome : ∃ sg, buckets.lookup "SG" = some sg := by
        cases hl : buckets.lookup "SG" with
        | none =>
            rw [hl] at h
            simp at h
        | some v => exact ⟨v, rfl⟩
      obtain ⟨sg, hsg⟩ := hsome
      refine ⟨List.insertionSort (fun a b : String => a ≤ b)
        ((buckets.filter fun p => p.1 ≠ "SG").map Prod.fst),
        List.sorted_insertionSort _ _, List.perm_insertionSort _ _, ?_⟩
      rw [classify_sg_branch buckets h, specClassifyNames]
      have h1 : (renameLoop "🇸🇬" "SG" ((buckets.lookup "SG").getD []) 1).2 =
          (List.range ((buckets.lookup "SG").getD []).length).map
            fun i => "🇸🇬 SG-" ++ pad3 (i + 1) := by
        rw [renameLoop_names]
        apply List.map_congr_left
        intro i _
        rw [Nat.add_comm 1 i]
        rfl
      rw [h1, processCodes_names, names_flatMap_comm]

/-- C4 (witness): the theorem applied to the example buckets
`{SG: [n1, n2], US: [n3]}`, whose values are all non-empty. -/
theorem C4_witness :
    (∀ p ∈ exampleBuckets, p.2 ≠ []) ∧
    (classify exampleBuckets).2.2 =
      ["🇸🇬 SG-001", "🇸🇬 SG-002", "🇺🇸 US-001"] :=
  ⟨by decide, (C4_classifier_order_and_names exampleBuckets (by decide)).2.2⟩

/-- C9: every node the classifier emits is one of the bucketed input nodes
with exactly one assignment to its `name` field: the stored name is the
classifier's assigned value, and every other field reads back
unchanged. -/
theorem C9_rename_frame (buckets : Buckets) (d : Dict)
    (h : d ∈ (classify buckets).1) :
    ∃ n v, n ∈ buckets.flatMap Prod.snd ∧ d = cacheSet n "name" v ∧
      dget d "name" = v ∧
      ∀ k, k ≠ "name" → d.lookup k = n.lookup k := by
  have hmem : ∃ n v, n ∈ buckets.flatMap Prod.snd ∧
      d = cacheSet n "name" v := by
    cases hb : ((buckets.lookup "SG").getD []).isEmpty with
    | true =>
        rw [classify_empty_branch buckets hb] at h
        obtain ⟨pr, hpr, n, hn, v, hv⟩ := processCodes_mem _ _ d h
        exact ⟨n, v, List.mem_flatMap.mpr ⟨pr, hpr, hn⟩, hv⟩
    | false =>
        rw [classify_sg_branch buckets hb] at h
        rcases List.mem_append.mp h with hd | hd
        · obtain ⟨n, hn, v, hv⟩ := renameLoop_mem "🇸🇬" "SG" _ 1 d hd
          have hsome : ∃ sg, buckets.lookup "SG" = some sg := by
            cases hl : buckets.lookup "SG" with
            | none =>
                rw [hl] at hb
                simp at hb
            | some v2 => exact ⟨v2, rfl⟩
          obtain ⟨sg, hsg⟩ := hsome
          rw [hsg] at hn
          simp only [Option.getD_some] at hn
          exact ⟨n, v, List.mem_flatMap.mpr
            ⟨("SG", sg), lookup_mem _ _ _ hsg, hn⟩, hv⟩
        · obtain ⟨pr, hpr, n, hn, v, hv⟩ := processCodes_mem _ _ d hd
          exact ⟨n, v, List.mem_flatMap.mpr
            ⟨pr, (List.mem_filter.mp hpr).1, hn⟩, hv⟩
  obtain ⟨n, v, hn, hd⟩ := hmem
  refine ⟨n, v, hn, hd, ?_, ?_⟩
  · rw [hd, dget_cacheSet_self]
  · intro k hk
    rw [hd, lookup_cacheSet_ne _ _ _ _ hk]

/-- C9 (witness): the theorem applied to the first node the classifier
emits for the example buckets. -/
theorem C9_witness :
    ([("server", "s1"), ("name", "🇸🇬 SG-001")] : Dict) ∈
      (classify exampleBuckets).1 ∧
    ∃ n v, n ∈ exampleBuckets.flatMap Prod.snd ∧
      ([("server", "s1"), ("name", "🇸🇬 SG-001")] : Dict) =
        cacheSet n "name" v ∧
      dget [("server", "s1"), ("name", "🇸🇬 SG-001")] "name" = v ∧
      ∀ k, k ≠ "name" →
        List.lookup k [("server", "s1"), ("name", "🇸🇬 SG-001")] =
          n.lookup k :=
  ⟨by decide, C9_rename_frame exampleBuckets _ (by decide)⟩

/-- C6: the pipeline produces an output artifact only when at least one
renamed, named node exists: an empty fetch result, or an empty name list
after classification, terminates the run with no output; any produced
output is the classifier's result with non-empty node and name lists. -/
theorem C6_no_output_without_nodes (dns : String → Option String)
    (geo : String → Option (Option String)) (st : GeoState)
    (fetched : List Entry) :
    (fetched = [] → runPipeline dns geo st fetched = none) ∧
    ((classify (buildBuckets dns geo st (deduplicate_nodes fetched) []).2).2.2
        = [] → runPipeline dns geo st fetched = none) ∧
    (∀ out, runPipeline dns geo st fetched = some out →
      out = classify
          (buildBuckets dns geo st (deduplicate_nodes fetched) []).2 ∧
        out.2.2 ≠ [] ∧ out.1 ≠ []) := by
  refine ⟨?_, ?_, ?_⟩
  · intro hf
    subst hf
    rfl
  · intro hcl
    cases fetched with
    | nil => rfl
    | cons e rest => simp [runPipeline, hcl]
  · intro out hout
    cases fetched with
    | nil => simp [runPipeline] at hout
    | cons e rest =>
        by_cases hcl : (classify (buildBuckets dns geo st
            (deduplicate_nodes (e :: rest)) []).2).2.2 = []
        · simp [runPipeline, hcl] at hout
        · have hout2 : classify (buildBuckets dns geo st
              (deduplicate_nodes (e :: rest)) []).2 = out := by
            simpa [runPipeline, hcl] using hout
          refine ⟨hout2.symm, ?_, ?_⟩
          · rw [← hout2]
            exact hcl
          · intro h1
            apply hcl
            rw [← classify_map_name]
            have h2 : (classify (buildBuckets dns geo st
                (deduplicate_nodes (e :: rest)) []).2).1 = out.1 := by
              rw [hout2]
            rw [h2, h1]
            rfl

/-- C6 (witness): the theorem applied to an empty fetch result, and to a
fetch result whose single record has no `server` field (so no named node
survives classification); neither run produces an output. -/
theorem C6_witness :
    runPipeline dnsFailOracle geoUSOracle emptyGeoState [] = none ∧
    runPipeline dnsFailOracle geoUSOracle emptyGeoState [.dict []] = none :=
  ⟨(C6_no_output_without_nodes dnsFailOracle geoUSOracle emptyGeoState
      []).1 rfl,
    (C6_no_output_without_nodes dnsFailOracle geoUSOracle emptyGeoState
      [.dict []]).2.1 (by rfl)⟩

/-- C5 (counterexample): a record with no endpoint participates in
deduplication: it is returned by `deduplicate_nodes`, and its presence
eliminates a later empty-endpoint record with the same port and type. -/
theorem C5_counterexample :
    dget [("port", "1"), ("type", "ss")] "server" = "" ∧
    deduplicate_nodes
      [.dict [("port", "1"), ("type", "ss")],
       .dict [("port", "1"), ("type", "ss"), ("extra", "x")]] =
      [[("port", "1"), ("type", "ss")]] := by
  constructor
  · rfl
  · decide

/-- C5 (amended): a record with a missing or empty endpoint is skipped by
the geolocation loop (geo bucketing is unchanged by such records), but it
does participate in deduplication, keyed with an empty endpoint
component; the port is not validated anywhere. -/
theorem C5_empty_endpoint_geo_only (dns : String → Option String)
    (geo : String → Option (Option String)) (st : GeoState) (ds : List Dict)
    (b : Buckets) :
    buildBuckets dns geo st ds b =
      buildBuckets dns geo st (ds.filter fun d => dget d "server" ≠ "") b ∧
    (∀ d : Dict, dget d "server" = "" → deduplicate_nodes [.dict d] = [d]) := by
  constructor
  · induction ds generalizing st b with
    | nil => rfl
    | cons d rest ih =>
        by_cases hs : dget d "server" = ""
        · simp only [buildBuckets, List.filter_cons, hs]
          simp only [ne_eq, not_true_eq_false, decide_False, Bool.false_eq_true,
            if_false, if_true, decide_True]
          exact ih st b
        · simp only [buildBuckets, List.filter_cons, if_neg hs]
          have hd : (decide (dget d "server" ≠ "") : Bool) = true := by
            simp [hs]
          rw [hd]
          simp only [if_true, buildBuckets, if_neg hs]
          exact ih _ _
  · intro d _
    simp [deduplicate_nodes, dedupAux]

/-- C5 (witness): the amended theorem at a concrete record without a
`server` field: geo bucketing ignores it, deduplication keeps it. -/
theorem C5_witness :
    (buildBuckets dnsFailOracle geoUSOracle emptyGeoState
        [[("port", "1"), ("type", "ss")]] [] =
      buildBuckets dnsFailOracle geoUSOracle emptyGeoState
        ([[("port", "1"), ("type", "ss")]].filter
          fun d => dget d "server" ≠ "") []) ∧
    dget [("port", "1"), ("type", "ss")] "server" = "" ∧
    deduplicate_nodes [.dict [("port", "1"), ("type", "ss")]] =
      [[("port", "1"), ("type", "ss")]] :=
  ⟨(C5_empty_endpoint_geo_only dnsFailOracle geoUSOracle emptyGeoState
      [[("port", "1"), ("type", "ss")]] []).1,
   rfl,
   (C5_empty_endpoint_geo_only dnsFailOracle geoUSOracle emptyGeoState
      [[("port", "1"), ("type", "ss")]] []).2
     [("port", "1"), ("type", "ss")] rfl⟩

theorem splitFirst_not_mem (sep : Char) (l : List Char) (h : sep ∉ l) :
    splitFirst sep l = none := by
  induction l with
  | nil => rfl
  | cons c rest ih =>
      have hc : ¬c = sep := fun hc => h (hc ▸ List.mem_cons_self _ _)
      rw [splitFirst, if_neg hc, ih fun hm => h (List.mem_cons_of_mem _ hm)]
      rfl

theorem splitFirst_append (sep : Char) (l1 l2 : List Char) (h : sep ∉ l1) :
    splitFirst sep (l1 ++ sep :: l2) = some (l1, l2) := by
  induction l1 with
  | nil => simp [splitFirst]
  | cons c rest ih =>
      have hc : ¬c = sep := fun hc => h (hc ▸ List.mem_cons_self _ _)
      rw [List.cons_append, splitFirst, if_neg hc,
        ih fun hm => h (List.mem_cons_of_mem _ hm)]
      rfl

theorem splitLast_append (sep : Char) (l1 l2 : List Char) (h : sep ∉ l2) :
    splitLast sep (l1 ++ sep :: l2) = some (l1, l2) := by
  rw [splitLast]
  have hr : (l1 ++ sep :: l2).reverse = l2.reverse ++ sep :: l1.reverse := by
    rw [List.reverse_append, List.reverse_cons, List.append_assoc]
    rfl
  rw [hr, splitFirst_append sep _ _ (by simpa using h)]
  simp

theorem splitLast_not_mem (sep : Char) (l : List Char) (h : sep ∉ l) :
    splitLast sep l = none := by
  rw [splitLast, splitFirst_not_mem sep _ (by simpa using h)]

theorem stripPre_append (pre l : List Char) :
    stripPre pre (pre ++ l) = some l := by
  induction pre with
  | nil => rfl
  | cons c rest ih => simp [stripPre, ih]

theorem b64index_b64char : ∀ n, n < 64 → b64index (b64char n) = some n := by
  decide

theorem b64char_ne_pad : ∀ n, n < 64 → b64char n ≠ '=' := by
  decide

theorem b64char_ne_special : ∀ n, n < 64 →
    b64char n ≠ '@' ∧ b64char n ≠ '#' ∧ b64char n ≠ ':' := by
  decide

theorem b64decodeNat_encodeNat (bs : List Nat) (h : ∀ x ∈ bs, x < 256) :
    b64decodeNat (b64encodeNat bs) = some bs := by
  induction bs using b64encodeNat.induct with
  | case1 => rfl
  | case2 a =>
      have ha : a < 256 := h a (List.mem_cons_self _ _)
      have h0 : a / 4 < 64 := by omega
      have h1 : a % 4 * 16 < 64 := by omega
      simp [b64encodeNat, b64decodeNat, b64index_b64char _ h0,
        b64index_b64char _ h1]
      omega
  | case3 a b =>
      have ha : a < 256 := h a (List.mem_cons_self _ _)
      have hb : b < 256 := h b (List.mem_cons_of_mem _ (List.mem_cons_self _ _))
      have h0 : a / 4 < 64 := by omega
      have h1 : a % 4 * 16 + b / 16 < 64 := by omega
      have h2 : b % 16 * 4 < 64 := by omega
      simp [b64encodeNat, b64decodeNat, b64index_b64char _ h0,
        b64index_b64char _ h1, b64index_b64char _ h2, b64char_ne_pad _ h2]
      omega
  | case4 a b c rest ih =>
      have ha : a < 256 := h a (List.mem_cons_self _ _)
      have hb : b < 256 := h b (List.mem_cons_of_mem _ (List.mem_cons_self _ _))
      have hc : c < 256 := h c (List.mem_cons_of_mem _
        (List.mem_cons_of_mem _ (List.mem_cons_self _ _)))
      have hrest : ∀ x ∈ rest, x < 256 := fun x hx =>
        h x (List.mem_cons_of_mem _ (List.mem_cons_of_mem _
          (List.mem_cons_of_mem _ hx)))
      have h0 : a / 4 < 64 := by omega
      have h1 : a % 4 * 16 + b / 16 < 64 := by omega
      have h2 : b % 16 * 4 + c / 64 < 64 := by omega
      have h3 : c % 64 < 64 := by omega
      simp [b64encodeNat, b64decodeNat, b64index_b64char _ h0,
        b64index_b64char _ h1, b64index_b64char _ h2, b64index_b64char _ h3,
        b64char_ne_pad _ h2, b64char_ne_pad _ h3, ih hrest]
      omega

theorem b64decode_encode (l : List Char) (h : ∀ c ∈ l, c.toNat < 256) :
    b64decode (b64encode l) = some l := by
  rw [b64decode, b64encode, b64decodeNat_encodeNat (l.map Char.toNat)
    (by intro x hx; obtain ⟨c, hc, rfl⟩ := List.mem_map.mp hx; exact h c hc)]
  show some ((l.map Char.toNat).map Char.ofNat) = some l
  rw [List.map_map]
  have hid : ∀ c ∈ l, (Char.ofNat ∘ Char.toNat) c = id c :=
    fun c _ => Char.ofNat_toNat c
  rw [List.map_congr_left hid, List.map_id]

theorem b64encodeNat_chars (bs : List Nat) (h : ∀ x ∈ bs, x < 256) :
    ∀ ch ∈ b64encodeNat bs, (∃ n, n < 64 ∧ ch = b64char n) ∨ ch = '=' := by
  induction bs using b64encodeNat.induct with
  | case1 => intro ch hch; cases hch
  | case2 a =>
      intro ch hch
      have ha : a < 256 := h a (List.mem_cons_self _ _)
      rw [b64encodeNat] at hch
      simp only [List.mem_cons, List.not_mem_nil, or_false] at hch
      rcases hch with hch | hch | hch | hch
      · exact Or.inl ⟨a / 4, by omega, hch⟩
      · exact Or.inl ⟨a % 4 * 16, by omega, hch⟩
      · exact Or.inr hch
      · exact Or.inr hch
  | case3 a b =>
      intro ch hch
      have ha : a < 256 := h a (List.mem_cons_self _ _)
      have hb : b < 256 := h b (List.mem_cons_of_mem _ (List.mem_cons_self _ _))
      rw [b64encodeNat] at hch
      simp only [List.mem_cons, List.not_mem_nil, or_false] at hch
      rcases hch with hch | hch | hch | hch
      · exact Or.inl ⟨a / 4, by omega, hch⟩
      · exact Or.inl ⟨a % 4 * 16 + b / 16, by omega, hch⟩
      · exact Or.inl ⟨b % 16 * 4, by omega, hch⟩
      · exact Or.inr hch
  | case4 a b c rest ih =>
      intro ch hch
      have ha : a < 256 := h a (List.mem_cons_self _ _)
      have hb : b < 256 := h b (List.mem_cons_of_mem _ (List.mem_cons_self _ _))
      have hc : c < 256 := h c (List.mem_cons_of_mem _
        (List.mem_cons_of_mem _ (List.mem_cons_self _ _)))
      have hrest : ∀ x ∈ rest, x < 256 := fun x hx =>
        h x (List.mem_cons_of_mem _ (List.mem_cons_of_mem _
          (List.mem_cons_of_mem _ hx)))
      rw [b64encodeNat] at hch
      simp only [List.mem_cons] at hch
      rcases hch with hch | hch | hch | hch | hch
      · exact Or.inl ⟨a / 4, by omega, hch⟩
      · exact Or.inl ⟨a % 4 * 16 + b / 16, by omega, hch⟩
      · exact Or.inl ⟨b % 16 * 4 + c / 64, by omega, hch⟩
      · exact Or.inl ⟨c % 64, by omega, hch⟩
      · exact ih hrest ch hch

/-- No separator character occurs in base64 output. -/
theorem b64encode_no_sep (l : List Char) (h : ∀ c ∈ l, c.toNat < 256) :
    ∀ ch ∈ b64encode l, ch ≠ '@' ∧ ch ≠ '#' := by
  intro ch hch
  rcases b64encodeNat_chars (l.map Char.toNat)
      (by intro x hx; obtain ⟨c, hc, rfl⟩ := List.mem_map.mp hx; exact h c hc)
      ch hch with ⟨n, hn, rfl⟩ | rfl
  · exact ⟨(b64char_ne_special n hn).1, (b64char_ne_special n hn).2.1⟩
  · exact ⟨by decide, by decide⟩

theorem percentDecode_id (l : List Char) (h : '%' ∉ l) :
    percentDecode l = l := by
  induction l with
  | nil => rfl
  | cons c rest ih =>
      have hc : ¬c = '%' := fun hc => h (hc ▸ List.mem_cons_self _ _)
      have hr : '%' ∉ rest := fun hm => h (List.mem_cons_of_mem _ hm)
      rw [percentDecode.eq_def]
      simp only [if_neg hc]
      rw [ih hr]

theorem parseJString_quoted (content rest : List Char) (h : '"' ∉ content) :
    parseJString ('"' :: (content ++ '"' :: rest)) = some (content, rest) := by
  simp only [parseJString, if_pos]
  exact splitFirst_append '"' content rest h

theorem parseJValue_quoted (content rest : List Char) (h : '"' ∉ content) :
    parseJValue ('"' :: (content ++ '"' :: rest)) = some (content, rest) := by
  simp only [parseJValue, if_pos]
  exact splitFirst_append '"' content rest h

theorem parseJPairs_jsonBody (kvs : List (String × String)) (fuel : Nat)
    (hkvs : kvs ≠ [])
    (hfuel : kvs.length ≤ fuel)
    (h : ∀ p ∈ kvs, '"' ∉ p.1.data ∧ '"' ∉ p.2.data) :
    parseJPairs fuel (jsonBody kvs) = some kvs := by
  induction kvs generalizing fuel with
  | nil => exact absurd rfl hkvs
  | cons kv rest ih =>
      obtain ⟨k, v⟩ := kv
      obtain ⟨hk, hv⟩ := h (k, v) (List.mem_cons_self _ _)
      cases fuel with
      | zero => simp at hfuel
      | succ f =>
          have hshape : ∀ tail : List Char, pairChars k v ++ tail =
              '"' :: (k.data ++ '"' :: (':' :: ('"' ::
                (v.data ++ '"' :: tail)))) := by
            intro tail
            simp [pairChars]
          have hps : ∀ tail : List Char,
              parseJString ('"' :: (k.data ++ '"' :: (':' :: ('"' ::
                (v.data ++ '"' :: tail))))) =
              some (k.data, ':' :: ('"' :: (v.data ++ '"' :: tail))) :=
            fun tail => parseJString_quoted k.data _ hk
          have hpv : ∀ tail : List Char,
              parseJValue ('"' :: (v.data ++ '"' :: tail)) =
              some (v.data, tail) :=
            fun tail => parseJValue_quoted v.data tail hv
          have hmk : String.mk k.data = k := rfl
          have hmv : String.mk v.data = v := rfl
          cases rest with
          | nil =>
              have hb : jsonBody [(k, v)] = pairChars k v ++ ['}'] := rfl
              rw [hb, hshape ['}'], parseJPairs, hps ['}']]
              simp [hpv ['}'], hmk, hmv]
          | cons r rs =>
              have hb : jsonBody ((k, v) :: r :: rs) =
                  pairChars k v ++ ',' :: jsonBody (r :: rs) := rfl
              rw [hb, hshape (',' :: jsonBody (r :: rs)), parseJPairs,
                hps (',' :: jsonBody (r :: rs))]
              have hfl : (r :: rs).length ≤ f := by
                simp only [List.length_cons] at hfuel ⊢
                omega
              simp [hpv (',' :: jsonBody (r :: rs)), hmk, hmv,
                ih f (List.cons_ne_nil _ _) hfl
                  (fun p hp => h p (List.mem_cons_of_mem _ hp))]

theorem jsonBody_length (kvs : List (String × String)) :
    kvs.length ≤ (jsonBody kvs).length := by
  induction kvs with
  | nil => simp [jsonBody]
  | cons kv rest ih =>
      obtain ⟨k, v⟩ := kv
      cases rest with
      | nil => simp [jsonBody, pairChars]
      | cons r rs =>
          have hb : jsonBody ((k, v) :: r :: rs) =
              pairChars k v ++ ',' :: jsonBody (r :: rs) := rfl
          rw [hb]
          have hp : 1 ≤ (pairChars k v).length := by simp [pairChars]
          simp only [List.length_cons, List.length_append] at ih hp ⊢
          omega

theorem parseFlatObj_jsonOfObj (kvs : List (String × String))
    (hkvs : kvs ≠ [])
    (h : ∀ p ∈ kvs, '"' ∉ p.1.data ∧ '"' ∉ p.2.data) :
    parseFlatObj (jsonOfObj kvs) = some kvs := by
  rw [jsonOfObj, parseFlatObj]
  simp only [if_pos]
  exact parseJPairs_jsonBody kvs _ hkvs (jsonBody_length kvs) h

theorem digitsVal_chars (l : List Char) (acc n : Nat)
    (h : digitsVal 10 l acc = some n) : ∀ c ∈ l, '0' ≤ c ∧ c ≤ '9' := by
  induction l generalizing acc with
  | nil => intro c hc; cases hc
  | cons c rest ih =>
      intro c2 hc2
      rw [digitsVal] at h
      cases hv : hexVal c with
      | none =>
          simp only [hv] at h
          exact Option.noConfusion h
      | some v =>
          simp only [hv] at h
          by_cases hb : v < 10
          · rw [if_pos hb] at h
            rcases List.mem_cons.mp hc2 with hc2 | hc2
            · subst hc2
              rw [hexVal] at hv
              by_cases h1 : '0' ≤ c2 ∧ c2 ≤ '9'
              · exact h1
              · exfalso
                rw [if_neg h1] at hv
                by_cases h2 : 'a' ≤ c2 ∧ c2 ≤ 'f'
                · rw [if_pos h2] at hv
                  obtain rfl := Option.some.inj hv
                  omega
                · rw [if_neg h2] at hv
                  by_cases h3 : 'A' ≤ c2 ∧ c2 ≤ 'F'
                  · rw [if_pos h3] at hv
                    obtain rfl := Option.some.inj hv
                    omega
                  · rw [if_neg h3] at hv
                    cases hv
            · exact ih (acc * 10 + v) h c2 hc2
          · rw [if_neg hb] at h
            cases h

theorem digit_ne (c : Char) (hc : '0' ≤ c ∧ c ≤ '9') :
    c ≠ ':' ∧ c ≠ '#' ∧ c ≠ '@' ∧ c ≠ '?' ∧ c ≠ '"' := by
  refine ⟨?_, ?_, ?_, ?_, ?_⟩ <;> rintro rfl
  · exact absurd hc.2 (by decide)
  · exact absurd hc.1 (by decide)
  · exact absurd hc.2 (by decide)
  · exact absurd hc.2 (by decide)
  · exact absurd hc.1 (by decide)

theorem parsePort_chars (l : List Char) (n : Nat) (h : parsePort l = some n) :
    ∀ c ∈ l, '0' ≤ c ∧ c ≤ '9' := by
  rw [parsePort] at h
  by_cases hl : l = []
  · rw [if_pos hl] at h
    cases h
  · rw [if_neg hl] at h
    exact digitsVal_chars l 0 n h

/-- Spec-modelled scheme C round-trip: parsing a canonically encoded
trust-token link recovers every field. -/
theorem parseTrojan_roundtrip (pw server portStr name : String)
    (query : Option String) (portN : Nat)
    (hport : parsePort portStr.data = some portN)
    (hpw1 : '#' ∉ pw.data) (hpw2 : '@' ∉ pw.data)
    (hs1 : '#' ∉ server.data)
    (hq : ∀ q, query = some q → '#' ∉ q.data ∧ ':' ∉ q.data) :
    parse_uri_node (encodeTrojan pw server portStr query name) =
      some ⟨"trojan", name, server, portN,
        [("password", pw), ("sni", server),
         ("skip-cert-verify", "true")]⟩ := by
  have hdig := parsePort_chars portStr.data portN hport
  have hp_ne : ∀ (x : Char), x ∈ portStr.data →
      x ≠ ':' ∧ x ≠ '#' ∧ x ≠ '@' ∧ x ≠ '?' ∧ x ≠ '"' :=
    fun x hx => digit_ne x (hdig x hx)
  cases query with
  | none =>
      have hdata : (encodeTrojan pw server portStr none name).data =
          "trojan://".data ++ ((pw.data ++ '@' :: (server.data ++ ':' ::
            portStr.data)) ++ '#' :: name.data) := by
        simp [encodeTrojan, List.append_assoc]
      have hv : stripPre "vmess://".data
          (encodeTrojan pw server portStr none name).data = none := by
        rw [hdata]; rfl
      have hs : stripPre "ss://".data
          (encodeTrojan pw server portStr none name).data = none := by
        rw [hdata]; rfl
      have ht : stripPre "trojan://".data
          (encodeTrojan pw server portStr none name).data =
          some ((pw.data ++ '@' :: (server.data ++ ':' :: portStr.data)) ++
            '#' :: name.data) := by
        rw [hdata]
        exact stripPre_append _ _
      simp only [parse_uri_node, hv, hs, ht]
      have hhash : '#' ∉ pw.data ++ '@' :: (server.data ++ ':' ::
          portStr.data) := by
        intro hm
        rcases List.mem_append.mp hm with hm | hm
        · exact hpw1 hm
        · rcases List.mem_cons.mp hm with hm | hm
          · exact absurd hm (by decide)
          · rcases List.mem_append.mp hm with hm | hm
            · exact hs1 hm
            · rcases List.mem_cons.mp hm with hm | hm
              · exact absurd hm (by decide)
              · exact (hp_ne _ hm).2.1 rfl
      have hcolon : ':' ∉ portStr.data := fun hm => (hp_ne _ hm).1 rfl
      have hquest : splitFirst '?' portStr.data = none :=
        splitFirst_not_mem '?' _ (fun hm => (hp_ne _ hm).2.2.2.1 rfl)
      rw [parseTrojan.eq_def]
      simp only [splitFirst_append '#' _ _ hhash,
        splitFirst_append '@' _ _ hpw2, splitLast_append ':' _ _ hcolon,
        hquest, hport]
  | some q =>
      obtain ⟨hq1, hq2⟩ := hq q rfl
      have hdata : (encodeTrojan pw server portStr (some q) name).data =
          "trojan://".data ++ ((pw.data ++ '@' :: (server.data ++ ':' ::
            (portStr.data ++ '?' :: q.data))) ++ '#' :: name.data) := by
        simp [encodeTrojan, List.append_assoc]
      have hv : stripPre "vmess://".data
          (encodeTrojan pw server portStr (some q) name).data = none := by
        rw [hdata]; rfl
      have hs : stripPre "ss://".data
          (encodeTrojan pw server portStr (some q) name).data = none := by
        rw [hdata]; rfl
      have ht : stripPre "trojan://".data
          (encodeTrojan pw server portStr (some q) name).data =
          some ((pw.data ++ '@' :: (server.data ++ ':' ::
            (portStr.data ++ '?' :: q.data))) ++ '#' :: name.data) := by
        rw [hdata]
        exact stripPre_append _ _
      simp only [parse_uri_node, hv, hs, ht]
      have hhash : '#' ∉ pw.data ++ '@' :: (server.data ++ ':' ::
          (portStr.data ++ '?' :: q.data)) := by
        intro hm
        rcases List.mem_append.mp hm with hm | hm
        · exact hpw1 hm
        · rcases List.mem_cons.mp hm with hm | hm
          · exact absurd hm (by decide)
          · rcases List.mem_append.mp hm with hm | hm
            · exact hs1 hm
            · rcases List.mem_cons.mp hm with hm | hm
              · exact absurd hm (by decide)
              · rcases List.mem_append.mp hm with hm | hm
                · exact (hp_ne _ hm).2.1 rfl
                · rcases List.mem_cons.mp hm with hm | hm
                  · exact absurd hm (by decide)
                  · exact hq1 hm
      have hcolon : ':' ∉ portStr.data ++ '?' :: q.data := by
        intro hm
        rcases List.mem_append.mp hm with hm | hm
        · exact (hp_ne _ hm).1 rfl
        · rcases List.mem_cons.mp hm with hm | hm
          · exact absurd hm (by decide)
          · exact hq2 hm
      have hquest : splitFirst '?' (portStr.data ++ '?' :: q.data) =
          some (portStr.data, q.data) :=
        splitFirst_append '?' _ _ (fun hm => (hp_ne _ hm).2.2.2.1 rfl)
      rw [parseTrojan.eq_def]
      simp only [splitFirst_append '#' _ _ hhash,
        splitFirst_append '@' _ _ hpw2, splitLast_append ':' _ _ hcolon,
        hquest, hport]

/-- Decimal digits are single-byte characters. -/
theorem digit_toNat_lt (c : Char) (hc : '0' ≤ c ∧ c ≤ '9') :
    c.toNat < 256 := by
  have h := hc.2
  rw [Char.le_def, UInt32.le_def, BitVec.le_def] at h
  have h2 : c.toNat ≤ 57 := h
  omega

/-- Spec-modelled scheme B round-trip (primary layout): parsing a
canonically encoded credential-prefixed link recovers every field. -/
theorem parseSS_roundtrip (cipher password server portStr name : String)
    (portN : Nat)
    (hport : parsePort portStr.data = some portN)
    (hc256 : ∀ c ∈ cipher.data, c.toNat < 256)
    (hp256 : ∀ c ∈ password.data, c.toNat < 256)
    (hcc : ':' ∉ cipher.data)
    (hs1 : '#' ∉ server.data)
    (hname : '%' ∉ name.data) :
    parse_uri_node (encodeSS cipher password server portStr name) =
      some ⟨"ss", name, server, portN,
        [("cipher", cipher), ("password", password)]⟩ := by
  have hdig := parsePort_chars portStr.data portN hport
  have hp_ne : ∀ (x : Char), x ∈ portStr.data →
      x ≠ ':' ∧ x ≠ '#' ∧ x ≠ '@' ∧ x ≠ '?' ∧ x ≠ '"' :=
    fun x hx => digit_ne x (hdig x hx)
  have hpay : ∀ c ∈ cipher.data ++ ':' :: password.data, c.toNat < 256 := by
    intro c hc
    rcases List.mem_append.mp hc with hc | hc
    · exact hc256 c hc
    · rcases List.mem_cons.mp hc with hc | hc
      · rw [hc]; decide
      · exact hp256 c hc
  have hsep := b64encode_no_sep (cipher.data ++ ':' :: password.data) hpay
  have hdata : (encodeSS cipher password server portStr name).data =
      "ss://".data ++ ((b64encode (cipher.data ++ ':' :: password.data) ++
        '@' :: (server.data ++ ':' :: portStr.data)) ++
        '#' :: name.data) := by
    simp [encodeSS, List.append_assoc]
  have hv : stripPre "vmess://".data
      (encodeSS cipher password server portStr name).data = none := by
    rw [hdata]; rfl
  have hss : stripPre "ss://".data
      (encodeSS cipher password server portStr name).data =
      some ((b64encode (cipher.data ++ ':' :: password.data) ++
        '@' :: (server.data ++ ':' :: portStr.data)) ++
        '#' :: name.data) := by
    rw [hdata]
    exact stripPre_append _ _
  simp only [parse_uri_node, hv, hss]
  have hhash : '#' ∉ b64encode (cipher.data ++ ':' :: password.data) ++
      '@' :: (server.data ++ ':' :: portStr.data) := by
    intro hm
    rcases List.mem_append.mp hm with hm | hm
    · exact (hsep _ hm).2 rfl
    · rcases List.mem_cons.mp hm with hm | hm
      · exact absurd hm (by decide)
      · rcases List.mem_append.mp hm with hm | hm
        · exact hs1 hm
        · rcases List.mem_cons.mp hm with hm | hm
          · exact absurd hm (by decide)
          · exact (hp_ne _ hm).2.1 rfl
  have hat : '@' ∉ b64encode (cipher.data ++ ':' :: password.data) :=
    fun hm => (hsep _ hm).1 rfl
  have hcolon : ':' ∉ portStr.data := fun hm => (hp_ne _ hm).1 rfl
  rw [parseSS.eq_def]
  simp only [splitFirst_append '#' _ _ hhash, splitFirst_append '@' _ _ hat,
    b64decode_encode _ hpay, splitFirst_append ':' _ _ hcc,
    splitLast_append ':' _ _ hcolon, hport,
    percentDecode_id name.data hname]

/-- Spec-modelled scheme B round-trip (legacy alternate layout): the whole
remainder base64-encoded with the embedded `@`. -/
theorem parseSSLegacy_roundtrip (cipher password server portStr name :
    String) (portN : Nat)
    (hport : parsePort portStr.data = some portN)
    (hc256 : ∀ c ∈ cipher.data, c.toNat < 256)
    (hp256 : ∀ c ∈ password.data, c.toNat < 256)
    (hs256 : ∀ c ∈ server.data, c.toNat < 256)
    (hcc : ':' ∉ cipher.data)
    (hsat : '@' ∉ server.data)
    (hname : '%' ∉ name.data) :
    parse_uri_node (encodeSSLegacy cipher password server portStr name) =
      some ⟨"ss", name, server, portN,
        [("cipher", cipher), ("password", password)]⟩ := by
  have hdig := parsePort_chars portStr.data portN hport
  have hp_ne : ∀ (x : Char), x ∈ portStr.data →
      x ≠ ':' ∧ x ≠ '#' ∧ x ≠ '@' ∧ x ≠ '?' ∧ x ≠ '"' :=
    fun x hx => digit_ne x (hdig x hx)
  have hpd256 : ∀ c ∈ portStr.data, c.toNat < 256 :=
    fun c hc => digit_toNat_lt c (hdig c hc)
  have harg : cipher.data ++ ':' :: password.data ++
      '@' :: server.data ++ ':' :: portStr.data =
      (cipher.data ++ ':' :: password.data) ++
        '@' :: (server.data ++ ':' :: portStr.data) := by
    simp [List.append_assoc]
  have hpay : ∀ c ∈ cipher.data ++ ':' :: password.data ++
      '@' :: server.data ++ ':' :: portStr.data, c.toNat < 256 := by
    intro c hc
    rw [harg] at hc
    rcases List.mem_append.mp hc with hm | hm
    · rcases List.mem_append.mp hm with h2 | h2
      · exact hc256 c h2
      · rcases List.mem_cons.mp h2 with h2 | h2
        · rw [h2]; decide
        · exact hp256 c h2
    · rcases List.mem_cons.mp hm with h2 | h2
      · rw [h2]; decide
      · rcases List.mem_append.mp h2 with h3 | h3
        · exact hs256 c h3
        · rcases List.mem_cons.mp h3 with h3 | h3
          · rw [h3]; decide
          · exact hpd256 c h3
  have hsep := b64encode_no_sep _ hpay
  have hdata : (encodeSSLegacy cipher password server portStr name).data =
      "ss://".data ++ (b64encode (cipher.data ++ ':' :: password.data ++
        '@' :: server.data ++ ':' :: portStr.data) ++ '#' :: name.data) := by
    simp [encodeSSLegacy, List.append_assoc]
  have hv : stripPre "vmess://".data
      (encodeSSLegacy cipher password server portStr name).data = none := by
    rw [hdata]; rfl
  have hss : stripPre "ss://".data
      (encodeSSLegacy cipher password server portStr name).data =
      some (b64encode (cipher.data ++ ':' :: password.data ++
        '@' :: server.data ++ ':' :: portStr.data) ++ '#' :: name.data) := by
    rw [hdata]
    exact stripPre_append _ _
  simp only [parse_uri_node, hv, hss]
  have hhash : '#' ∉ b64encode (cipher.data ++ ':' :: password.data ++
      '@' :: server.data ++ ':' :: portStr.data) :=
    fun hm => (hsep _ hm).2 rfl
  have hat : splitFirst '@' (b64encode (cipher.data ++ ':' ::
      password.data ++ '@' :: server.data ++ ':' :: portStr.data)) = none :=
    splitFirst_not_mem '@' _ (fun hm => (hsep _ hm).1 rfl)
  have hdec : b64decode (b64encode (cipher.data ++ ':' :: password.data ++
      '@' :: server.data ++ ':' :: portStr.data)) =
      some ((cipher.data ++ ':' :: password.data) ++
        '@' :: (server.data ++ ':' :: portStr.data)) := by
    rw [b64decode_encode _ hpay, harg]
  have hatsp : '@' ∉ server.data ++ ':' :: portStr.data := by
    intro hm
    rcases List.mem_append.mp hm with hm | hm
    · exact hsat hm
    · rcases List.mem_cons.mp hm with hm | hm
      · exact absurd hm (by decide)
      · exact (hp_ne _ hm).2.2.1 rfl
  have hcolon : ':' ∉ portStr.data := fun hm => (hp_ne _ hm).1 rfl
  rw [parseSS.eq_def]
  simp only [splitFirst_append '#' _ _ hhash, hat, hdec,
    splitLast_append '@' _ _ hatsp, splitFirst_append ':' _ _ hcc,
    splitLast_append ':' _ _ hcolon, hport,
    percentDecode_id name.data hname]

theorem pairChars_lt (k v : String)
    (hk : ∀ c ∈ k.data, c.toNat < 256) (hv : ∀ c ∈ v.data, c.toNat < 256) :
    ∀ c ∈ pairChars k v, c.toNat < 256 := by
  intro c hc
  by_cases hk' : c ∈ k.data
  · exact hk c hk'
  by_cases hv' : c ∈ v.data
  · exact hv c hv'
  have hq : c = '"' ∨ c = ':' := by
    simp only [pairChars, List.mem_append, List.mem_cons,
      List.not_mem_nil, or_false] at hc
    tauto
  rcases hq with rfl | rfl <;> decide

theorem jsonBody_lt (kvs : List (String × String))
    (h : ∀ p ∈ kvs, (∀ c ∈ p.1.data, c.toNat < 256) ∧
      (∀ c ∈ p.2.data, c.toNat < 256)) :
    ∀ c ∈ jsonBody kvs, c.toNat < 256 := by
  induction kvs with
  | nil =>
      intro c hc
      rcases List.mem_cons.mp hc with hc | hc
      · rw [hc]; decide
      · cases hc
  | cons kv rest ih =>
      obtain ⟨k, v⟩ := kv
      obtain ⟨hk, hv⟩ := h (k, v) (List.mem_cons_self _ _)
      intro c hc
      cases rest with
      | nil =>
          have hb : jsonBody [(k, v)] = pairChars k v ++ ['}'] := rfl
          rw [hb] at hc
          rcases List.mem_append.mp hc with hm | hm
          · exact pairChars_lt k v hk hv c hm
          · rcases List.mem_cons.mp hm with hm | hm
            · rw [hm]; decide
            · cases hm
      | cons r rs =>
          have hb : jsonBody ((k, v) :: r :: rs) =
              pairChars k v ++ ',' :: jsonBody (r :: rs) := rfl
          rw [hb] at hc
          rcases List.mem_append.mp hc with hm | hm
          · exact pairChars_lt k v hk hv c hm
          · rcases List.mem_cons.mp hm with hm | hm
            · rw [hm]; decide
            · exact ih (fun p hp => h p (List.mem_cons_of_mem _ hp)) c hm

theorem jsonOfObj_lt (kvs : List (String × String))
    (h : ∀ p ∈ kvs, (∀ c ∈ p.1.data, c.toNat < 256) ∧
      (∀ c ∈ p.2.data, c.toNat < 256)) :
    ∀ c ∈ jsonOfObj kvs, c.toNat < 256 := by
  intro c hc
  rcases List.mem_cons.mp hc with hc | hc
  · rw [hc]; decide
  · exact jsonBody_lt kvs h c hc

/-- Spec-modelled scheme A round-trip: parsing a canonically encoded
inline-JSON-over-base64 link recovers every field. -/
theorem parseVmess_roundtrip (name address portStr id aid cipher tls net :
    String) (portN : Nat)
    (hport : parsePort portStr.data = some portN)
    (hn256 : ∀ c ∈ name.data, c.toNat < 256)
    (ha256 : ∀ c ∈ address.data, c.toNat < 256)
    (hi256 : ∀ c ∈ id.data, c.toNat < 256)
    (hd256 : ∀ c ∈ aid.data, c.toNat < 256)
    (hc256 : ∀ c ∈ cipher.data, c.toNat < 256)
    (ht256 : ∀ c ∈ tls.data, c.toNat < 256)
    (hw256 : ∀ c ∈ net.data, c.toNat < 256)
    (hnq : '"' ∉ name.data) (haq : '"' ∉ address.data)
    (hiq : '"' ∉ id.data) (hdq : '"' ∉ aid.data)
    (hcq : '"' ∉ cipher.data) (htq : '"' ∉ tls.data)
    (hwq : '"' ∉ net.data) :
    parse_uri_node
        (encodeVmess name address portStr id aid cipher tls net) =
      some ⟨"vmess", name, address, portN,
        [("id", id), ("aid", aid), ("cipher", cipher),
         ("tls", if tls = "tls" then "true" else "false"),
         ("net", net)]⟩ := by
  have hdigq : '"' ∉ portStr.data := fun hm =>
    (digit_ne _ (parsePort_chars portStr.data portN hport _ hm)).2.2.2.2 rfl
  have hdig256 : ∀ c ∈ portStr.data, c.toNat < 256 := fun c hc =>
    digit_toNat_lt c (parsePort_chars portStr.data portN hport c hc)
  have hkv : ∀ p ∈ [("name", name), ("address", address),
      ("port", portStr), ("id", id), ("aid", aid), ("cipher", cipher),
      ("tls", tls), ("net", net)],
      (∀ c ∈ p.1.data, c.toNat < 256) ∧ (∀ c ∈ p.2.data, c.toNat < 256) := by
    simp only [List.forall_mem_cons]
    refine ⟨⟨by decide, hn256⟩, ⟨by decide, ha256⟩, ⟨by decide, hdig256⟩,
      ⟨by decide, hi256⟩, ⟨by decide, hd256⟩, ⟨by decide, hc256⟩,
      ⟨by decide, ht256⟩, ⟨by decide, hw256⟩, ?_⟩
    intro x hx
    cases hx
  have hquote : ∀ p ∈ [("name", name), ("address", address),
      ("port", portStr), ("id", id), ("aid", aid), ("cipher", cipher),
      ("tls", tls), ("net", net)],
      '"' ∉ p.1.data ∧ '"' ∉ p.2.data := by
    simp only [List.forall_mem_cons]
    refine ⟨⟨by decide, hnq⟩, ⟨by decide, haq⟩, ⟨by decide, hdigq⟩,
      ⟨by decide, hiq⟩, ⟨by decide, hdq⟩, ⟨by decide, hcq⟩,
      ⟨by decide, htq⟩, ⟨by decide, hwq⟩, ?_⟩
    intro x hx
    cases hx
  have hbound := jsonOfObj_lt _ hkv
  have hdata : (encodeVmess name address portStr id aid cipher tls net).data =
      "vmess://".data ++ b64encode (jsonOfObj [("name", name),
        ("address", address), ("port", portStr), ("id", id), ("aid", aid),
        ("cipher", cipher), ("tls", tls), ("net", net)]) := rfl
  have hv : stripPre "vmess://".data
      (encodeVmess name address portStr id aid cipher tls net).data =
      some (b64encode (jsonOfObj [("name", name), ("address", address),
        ("port", portStr), ("id", id), ("aid", aid), ("cipher", cipher),
        ("tls", tls), ("net", net)])) := by
    rw [hdata]
    exact stripPre_append _ _
  simp only [parse_uri_node, hv]
  rw [parseVmess.eq_def]
  have hl1 : List.lookup "name" [("name", name), ("address", address),
      ("port", portStr), ("id", id), ("aid", aid), ("cipher", cipher),
      ("tls", tls), ("net", net)] = some name := rfl
  have hl2 : List.lookup "address" [("name", name), ("address", address),
      ("port", portStr), ("id", id), ("aid", aid), ("cipher", cipher),
      ("tls", tls), ("net", net)] = some address := rfl
  have hl3 : List.lookup "port" [("name", name), ("address", address),
      ("port", portStr), ("id", id), ("aid", aid), ("cipher", cipher),
      ("tls", tls), ("net", net)] = some portStr := rfl
  have hl4 : List.lookup "id" [("name", name), ("address", address),
      ("port", portStr), ("id", id), ("aid", aid), ("cipher", cipher),
      ("tls", tls), ("net", net)] = some id := rfl
  have hl5 : List.lookup "aid" [("name", name), ("address", address),
      ("port", portStr), ("id", id), ("aid", aid), ("cipher", cipher),
      ("tls", tls), ("net", net)] = some aid := rfl
  have hl6 : List.lookup "cipher" [("name", name), ("address", address),
      ("port", portStr), ("id", id), ("aid", aid), ("cipher", cipher),
      ("tls", tls), ("net", net)] = some cipher := rfl
  have hl7 : List.lookup "tls" [("name", name), ("address", address),
      ("port", portStr), ("id", id), ("aid", aid), ("cipher", cipher),
      ("tls", tls), ("net", net)] = some tls := rfl
  have hl8 : List.lookup "net" [("name", name), ("address", address),
      ("port", portStr), ("id", id), ("aid", aid), ("cipher", cipher),
      ("tls", tls), ("net", net)] = some net := rfl
  have hl9 : List.lookup "host" [("name", name), ("address", address),
      ("port", portStr), ("id", id), ("aid", aid), ("cipher", cipher),
      ("tls", tls), ("net", net)] = none := rfl
  have hl0 : List.lookup "path" [("name", name), ("address", address),
      ("port", portStr), ("id", id), ("aid", aid), ("cipher", cipher),
      ("tls", tls), ("net", net)] = none := rfl
  simp only [b64decode_encode _ hbound,
    parseFlatObj_jsonOfObj _ (List.cons_ne_nil _ _) hquote,
    hl1, hl2, hl3, hl4, hl5, hl6, hl7, hl8, hl9, hl0, hport,
    Option.getD_some, Option.some.injEq, List.append_nil]

/-- C7 (spec-modelled): for every canonically encoded share-link of each of
the three recognized URI schemes (and the legacy alternate layout of the
credential-prefixed scheme), `parse_uri_node` round-trips the server, port,
and display name exactly as encoded; and the trust-token example
`trojan://pw1@example.com:443?foo=bar#MyNode` parses to the claimed
record, with the password, the SNI defaulted to the server, and the
skip-certificate-verification flag set. -/
theorem C7_parse_uri_node_roundtrip :
    (∀ (pw server portStr name : String) (query : Option String)
      (portN : Nat), parsePort portStr.data = some portN →
      '#' ∉ pw.data → '@' ∉ pw.data → '#' ∉ server.data →
      (∀ q, query = some q → '#' ∉ q.data ∧ ':' ∉ q.data) →
      parse_uri_node (encodeTrojan pw server portStr query name) =
        some ⟨"trojan", name, server, portN,
          [("password", pw), ("sni", server),
           ("skip-cert-verify", "true")]⟩) ∧
    (∀ (cipher password server portStr name : String) (portN : Nat),
      parsePort portStr.data = some portN →
      (∀ c ∈ cipher.data, c.toNat < 256) →
      (∀ c ∈ password.data, c.toNat < 256) →
      ':' ∉ cipher.data → '#' ∉ server.data → '%' ∉ name.data →
      parse_uri_node (encodeSS cipher password server portStr name) =
        some ⟨"ss", name, server, portN,
          [("cipher", cipher), ("password", password)]⟩) ∧
    (∀ (cipher password server portStr name : String) (portN : Nat),
      parsePort portStr.data = some portN →
      (∀ c ∈ cipher.data, c.toNat < 256) →
      (∀ c ∈ password.data, c.toNat < 256) →
      (∀ c ∈ server.data, c.toNat < 256) →
      ':' ∉ cipher.data → '@' ∉ server.data → '%' ∉ name.data →
      parse_uri_node (encodeSSLegacy cipher password server portStr name) =
        some ⟨"ss", name, server, portN,
          [("cipher", cipher), ("password", password)]⟩) ∧
    (∀ (name address portStr id aid cipher tls net : String) (portN : Nat),
      parsePort portStr.data = some portN →
      (∀ c ∈ name.data, c.toNat < 256) →
      (∀ c ∈ address.data, c.toNat < 256) →
      (∀ c ∈ id.data, c.toNat < 256) →
      (∀ c ∈ aid.data, c.toNat < 256) →
      (∀ c ∈ cipher.data, c.toNat < 256) →
      (∀ c ∈ tls.data, c.toNat < 256) →
      (∀ c ∈ net.data, c.toNat < 256) →
      '"' ∉ name.data → '"' ∉ address.data → '"' ∉ id.data →
      '"' ∉ aid.data → '"' ∉ cipher.data → '"' ∉ tls.data →
      '"' ∉ net.data →
      parse_uri_node
          (encodeVmess name address portStr id aid cipher tls net) =
        some ⟨"vmess", name, address, portN,
          [("id", id), ("aid", aid), ("cipher", cipher),
           ("tls", if tls = "tls" then "true" else "false"),
           ("net", net)]⟩) ∧
    parse_uri_node "trojan://pw1@example.com:443?foo=bar#MyNode" =
      some ⟨"trojan", "MyNode", "example.com", 443,
        [("password", "pw1"), ("sni", "example.com"),
         ("skip-cert-verify", "true")]⟩ :=
  ⟨fun pw server portStr name query portN h1 h2 h3 h4 h5 =>
    parseTrojan_roundtrip pw server portStr name query portN h1 h2 h3 h4 h5,
   fun cipher password server portStr name portN h1 h2 h3 h4 h5 h6 =>
    parseSS_roundtrip cipher password server portStr name portN
      h1 h2 h3 h4 h5 h6,
   fun cipher password server portStr name portN h1 h2 h3 h4 h5 h6 h7 =>
    parseSSLegacy_roundtrip cipher password server portStr name portN
      h1 h2 h3 h4 h5 h6 h7,
   fun name address portStr id aid cipher tls net portN h1 h2 h3 h4 h5 h6
      h7 h8 h9 h10 h11 h12 h13 h14 h15 =>
    parseVmess_roundtrip name address portStr id aid cipher tls net portN
      h1 h2 h3 h4 h5 h6 h7 h8 h9 h10 h11 h12 h13 h14 h15,
   by decide⟩

/-- C7 (witness): the round-trip theorem applied to concrete links of each
scheme, and the concrete trust-token example from the claim. -/
theorem C7_witness :
    parsePort "8443".data = some 8443 ∧
    parse_uri_node (encodeTrojan "pass" "host.example" "8443" none
        "Node A") =
      some ⟨"trojan", "Node A", "host.example", 8443,
        [("password", "pass"), ("sni", "host.example"),
         ("skip-cert-verify", "true")]⟩ ∧
    parse_uri_node (encodeSS "aes-128-gcm" "secret" "host.example" "8443"
        "Node B") =
      some ⟨"ss", "Node B", "host.example", 8443,
        [("cipher", "aes-128-gcm"), ("password", "secret")]⟩ ∧
    parse_uri_node (encodeVmess "Node C" "vm.example" "8443" "uuid-1" "0"
        "auto" "tls" "ws") =
      some ⟨"vmess", "Node C", "vm.example", 8443,
        [("id", "uuid-1"), ("aid", "0"), ("cipher", "auto"),
         ("tls", if ("tls" : String) = "tls" then "true" else "false"),
         ("net", "ws")]⟩ ∧
    parse_uri_node "trojan://pw1@example.com:443?foo=bar#MyNode" =
      some ⟨"trojan", "MyNode", "example.com", 443,
        [("password", "pw1"), ("sni", "example.com"),
         ("skip-cert-verify", "true")]⟩ :=
  ⟨by decide,
   C7_parse_uri_node_roundtrip.1 "pass" "host.example" "8443" "Node A"
     none 8443 (by decide) (by decide) (by decide) (by decide)
     (fun q hq => Option.noConfusion hq),
   C7_parse_uri_node_roundtrip.2.1 "aes-128-gcm" "secret" "host.example"
     "8443" "Node B" 8443 (by decide) (by decide) (by decide) (by decide)
     (by decide) (by decide),
   C7_parse_uri_node_roundtrip.2.2.2.1 "Node C" "vm.example" "8443"
     "uuid-1" "0" "auto" "tls" "ws" 8443 (by decide) (by decide)
     (by decide) (by decide) (by decide) (by decide) (by decide)
     (by decide) (by decide) (by decide) (by decide) (by decide)
     (by decide) (by decide) (by decide),
   C7_parse_uri_node_roundtrip.2.2.2.2⟩

end ClashAggregator
